import Mathlib

/-
Verification of the FlagValues registry and parsing engine (gflags/flagvalues.py).

Python strings are modelled as lists of characters, Python flag objects as
entries of a heap indexed by object ids (so Python object identity is id
equality), and the name-to-flag dictionary as a function from names to
optional ids.  Exceptions are modelled with Except.  File input is modelled by
a finite association list from filenames to the lists of raw lines (including
their trailing newline characters) that readlines would produce.
-/

deriving instance DecidableEq for Except

namespace Gflags

/-- Python strings, modelled as lists of characters. -/
abbrev PyStr := List Char

/-- A raw value routed to a flag parser: either a string taken from the
argument vector, or a Python boolean (used for valueless boolean tokens). -/
inductive PValue where
  | pstr (s : PyStr)
  | pbool (b : Bool)
deriving DecidableEq

/-- The fields of a Flag object that the registry engine reads or writes.
The Flag class itself (gflags/flag.py) is outside the covered source; these
fields are exactly the contract the specification states the engine needs:
long name, optional short name, boolean trait, override permission, the
value/default pair, the using-default marker and the explicitly-set marker. -/
structure Flag where
  name : PyStr
  short_name : Option PyStr
  boolean : Bool
  allow_override : Bool
  using_default_value : Bool
  present : Bool
  value : PValue
  default_value : PValue
deriving DecidableEq

/-- The typed errors raised by the engine.  Message strings are replaced by the
offending token or name; suggestion lists are elided. -/
inductive GError where
  | flagsError (arg : PyStr)
  | duplicateFlagError (name : PyStr)
  | unrecognizedFlagError (name : PyStr) (arg : PyStr)
  | illegalFlagValue
  | cantOpenFlagFileError
  | unparsedFlagAccessError
  | attributeError (name : PyStr)
deriving DecidableEq

/-- The state of a FlagValues registry: the name-to-flag dictionary (as a map
from names to flag ids), the heap of flag objects, the hidden-name set, the
three module indices, the parsed marker and the GNU-mode marker. -/
structure FlagValues where
  flags : PyStr → Option Nat
  heap : Nat → Flag
  hiddenflags : List PyStr
  flags_by_module : List (PyStr × List Nat)
  flags_by_module_id : List (Int × List Nat)
  key_flags_by_module : List (PyStr × List Nat)
  flags_parsed : Bool
  use_gnu_getopt : Bool

/-- Update of the name dictionary at one key. -/
def mapSet (m : PyStr → Option Nat) (k : PyStr) (v : Nat) : PyStr → Option Nat :=
  fun k' => if k' = k then some v else m k'

/-- Removal of one key of the name dictionary. -/
def mapRemove (m : PyStr → Option Nat) (k : PyStr) : PyStr → Option Nat :=
  fun k' => if k' = k then none else m k'

/-- FlagValues.FindModuleDefiningFlag: the first module whose flag list holds a
flag with the given long or short name. -/
def findModuleDefiningFlag (s : FlagValues) (flagname : PyStr) : Option PyStr :=
  s.flags_by_module.findSome? fun p =>
    if p.2.any (fun i => (s.heap i).name == flagname ||
        (s.heap i).short_name == some flagname) then some p.1 else none

/-- FlagValues.FindModuleIdDefiningFlag: as above, over the module-id index. -/
def findModuleIdDefiningFlag (s : FlagValues) (flagname : PyStr) : Option Int :=
  s.flags_by_module_id.findSome? fun p =>
    if p.2.any (fun i => (s.heap i).name == flagname ||
        (s.heap i).short_name == some flagname) then some p.1 else none

/-- The duplicate test of FlagValues.__setitem__: the key is already taken and
neither the incoming flag nor the flag currently at that key permits
override. -/
def setitemDupCond (s : FlagValues) (key : PyStr) (flag : Flag) : Bool :=
  match s.flags key with
  | some eid => !flag.allow_override && !(s.heap eid).allow_override
  | none => false

/-- The re-import test of FlagValues.__setitem__: the flag was already defined
by a module of the same name as the calling module but with a different module
id, which indicates the defining module is simply being imported again. -/
def setitemReimportSkip (s : FlagValues) (name : PyStr) (callerModuleName : PyStr)
    (callerModuleId : Int) : Bool :=
  (findModuleDefiningFlag s name == some callerModuleName) &&
    (match findModuleIdDefiningFlag s name with
     | some m => m != callerModuleId
     | none => true)

/-- The final replacement step of FlagValues.__setitem__: bind the long name
when the key is new, or the flag currently at the key is still at its default,
or the incoming flag is not at its default.  The dictionary given here is the
one already holding the short-name binding. -/
def setitemFinish (s : FlagValues) (fl1 : PyStr → Option Nat) (name : PyStr)
    (fid : Nat) : PyStr → Option Nat :=
  if (match fl1 name with
      | some eid => (s.heap eid).using_default_value
      | none => true) || !(s.heap fid).using_default_value
  then mapSet fl1 name fid else fl1

/-- FlagValues.__setitem__, registration of the flag with id fid under the
given name.  The calling module name and id stand for the runtime caller
introspection of GetCallingModuleObjectAndName.  The type-shaped checks of the
Python code (flag must be a Flag, name must be a string) are enforced by the
types of the embedding. -/
def setitem (s : FlagValues) (name : PyStr) (fid : Nat) (callerModuleName : PyStr)
    (callerModuleId : Int) : Except GError FlagValues :=
  let flag := s.heap fid
  if name = [] then .error (.flagsError name)
  else if setitemDupCond s name flag then
    if setitemReimportSkip s name callerModuleName callerModuleId then .ok s
    else .error (.duplicateFlagError name)
  else
    match flag.short_name with
    | some sn =>
      if setitemDupCond s sn flag then .error (.duplicateFlagError sn)
      else .ok { s with flags := setitemFinish s (mapSet s.flags sn fid) name fid }
    | none => .ok { s with flags := setitemFinish s s.flags name fid }

/- ----------------------------------------------------------------- -/
/- Token helpers of the argument scanner.                             -/
/- ----------------------------------------------------------------- -/

def dashL : PyStr := ['-']
def dashdashL : PyStr := ['-', '-']
def noL : PyStr := ['n', 'o']
def undefokName : PyStr := "undefok".toList

/-- Python str.startswith. -/
def pyStartsWith (s pat : PyStr) : Bool := pat.isPrefixOf s

/-- Python arg.lstrip of the dash character: drop every leading dash. -/
def pyLStripDash (s : PyStr) : PyStr := s.dropWhile (· == '-')

/-- The name/value split of _ParseArgs: when the token holds an equals sign,
strip leading dashes and split at the first equals sign; otherwise the whole
dash-stripped token is the name and there is no value. -/
def pySplitTok (arg : PyStr) : PyStr × Option PyStr :=
  if arg.contains '=' then
    let st := pyLStripDash arg
    (st.takeWhile (· != '='), some ((st.dropWhile (· != '=')).drop 1))
  else (pyLStripDash arg, none)

/-- Python whitespace characters, as recognised by str.isspace and str.strip. -/
def pyIsSpaceChar (c : Char) : Bool :=
  c == ' ' || c == '\t' || c == '\n' || c == '\r' || c == '\x0b' || c == '\x0c'

/-- Python str.isspace: nonempty and all whitespace. -/
def pyIsSpace (s : PyStr) : Bool := !s.isEmpty && s.all pyIsSpaceChar

/-- Python str.strip: drop whitespace from both ends. -/
def pyStrip (s : PyStr) : PyStr :=
  ((s.dropWhile pyIsSpaceChar).reverse.dropWhile pyIsSpaceChar).reverse

/-- Worker of the comma split, accumulating the current field reversed. -/
def pySplitCommaAux (cur : PyStr) : PyStr → List PyStr
  | [] => [cur.reverse]
  | c :: rest =>
    if c == ',' then cur.reverse :: pySplitCommaAux [] rest
    else pySplitCommaAux (c :: cur) rest

/-- Python value.split of the comma character. -/
def pySplitComma (s : PyStr) : List PyStr := pySplitCommaAux [] s

/-- The names an undefok value contributes to the suppression set: each
comma-separated field stripped, and each such field with a no put in front. -/
def undefokNames (v : PyStr) : List PyStr :=
  (pySplitComma v).map pyStrip ++ (pySplitComma v).map (fun x => noL ++ pyStrip x)

/-- Modelled from the spec: gflags/flag.py is not under the covered source.
The spec requires a Flag object to expose a Parse(rawValue) operation; in the
model, parsing stores the routed value and marks the flag as explicitly set.
Value conversion by the individual flag types is declared out of scope. -/
def flagParse (f : Flag) (v : PValue) : Flag :=
  { f with value := v, present := true }

/-- The mutation performed for one resolved flag read: flag.Parse(value)
followed by clearing using_default_value, applied at the flag id in the
heap. -/
def applyParse (heap : Nat → Flag) (fid : Nat) (v : PValue) : Nat → Flag :=
  fun i => if i = fid then { flagParse (heap fid) v with using_default_value := false }
           else heap i

/-- The boolean-negation lookup of _ParseArgs: for a token name that is not
itself registered, when the name starts with no, the remainder is looked up
and must name a registered boolean flag. -/
def noBoolResolves (fd : PyStr → Option Nat) (heap : Nat → Flag) (name : PyStr) :
    Option Nat :=
  if pyStartsWith name noL then
    match fd (name.drop 2) with
    | some j => if (heap j).boolean then some j else none
    | none => none
  else none

/-- The results of _ParseArgs: unknown (name, token) pairs, unparsed
positional tokens, and the undefok suppression set. -/
abbrev ParseOutcome := List (PyStr × PyStr) × List PyStr × List PyStr

/-- A scan result together with the mutated heap and the trace of Parse calls
(flag id and routed value, in scan order). -/
abbrev LoopResult := (Nat → Flag) × List (Nat × PValue) × Except GError ParseOutcome

/-- FlagValues._ParseArgs: the main scanning loop.  The heap carries the flag
objects mutated in place by the Python code; the trace records every Parse
invocation the scan performs. -/
def parseArgsLoop (gnu : Bool) (fd : PyStr → Option Nat) (heap : Nat → Flag) :
    List PyStr → LoopResult
  | [] => (heap, [], .ok ([], [], []))
  | arg :: rest =>
    if pyStartsWith arg dashL = false then
      -- a non-argument: default is break, GNU is skip
      if gnu then
        let r := parseArgsLoop gnu fd heap rest
        (r.1, r.2.1, r.2.2.map fun o => (o.1, arg :: o.2.1, o.2.2))
      else (heap, [], .ok ([], arg :: rest, []))
    else if arg = dashdashL then (heap, [], .ok ([], rest, []))
    else
      let nv := pySplitTok arg
      let name := nv.1
      if name = [] then
        -- the token is all dashes
        if gnu then
          let r := parseArgsLoop gnu fd heap rest
          (r.1, r.2.1, r.2.2.map fun o => (o.1, arg :: o.2.1, o.2.2))
        else (heap, [], .ok ([], arg :: rest, []))
      else if name = undefokName then
        match nv.2 with
        | some v =>
          let r := parseArgsLoop gnu fd heap rest
          (r.1, r.2.1, r.2.2.map fun o => (o.1, o.2.1, undefokNames v ++ o.2.2))
        | none =>
          match rest with
          | [] => (heap, [], .error (.flagsError arg))
          | v :: rest2 =>
            let r := parseArgsLoop gnu fd heap rest2
            (r.1, r.2.1, r.2.2.map fun o => (o.1, o.2.1, undefokNames v ++ o.2.2))
      else
        match fd name with
        | some fid =>
          if (heap fid).boolean && nv.2.isNone then
            let heap2 := applyParse heap fid (.pbool true)
            let r := parseArgsLoop gnu fd heap2 rest
            (r.1, (fid, PValue.pbool true) :: r.2.1, r.2.2)
          else
            match nv.2 with
            | some v =>
              let heap2 := applyParse heap fid (.pstr v)
              let r := parseArgsLoop gnu fd heap2 rest
              (r.1, (fid, PValue.pstr v) :: r.2.1, r.2.2)
            | none =>
              match rest with
              | [] => (heap, [], .error (.flagsError arg))
              | v :: rest2 =>
                let heap2 := applyParse heap fid (.pstr v)
                let r := parseArgsLoop gnu fd heap2 rest2
                (r.1, (fid, PValue.pstr v) :: r.2.1, r.2.2)
        | none =>
          match noBoolResolves fd heap name with
          | some nfid =>
            let heap2 := applyParse heap nfid (.pbool false)
            let r := parseArgsLoop gnu fd heap2 rest
            (r.1, (nfid, PValue.pbool false) :: r.2.1, r.2.2)
          | none =>
            let r := parseArgsLoop gnu fd heap rest
            (r.1, r.2.1, r.2.2.map fun o => ((name, arg) :: o.1, o.2.1, o.2.2))

/- ----------------------------------------------------------------- -/
/- Flagfile expansion.                                                -/
/- ----------------------------------------------------------------- -/

def ffEqL : PyStr := "--flagfile=".toList
def ffL : PyStr := "--flagfile".toList
def fEqL : PyStr := "-flagfile=".toList
def fL : PyStr := "-flagfile".toList

/-- FlagValues.__IsFlagFileDirective. -/
def isFlagFileDirective (t : PyStr) : Bool :=
  pyStartsWith t ffEqL || t == ffL || pyStartsWith t fEqL || t == fL

/-- Modelled restriction: os.path.expanduser expands a leading tilde using the
process environment; the model has no home directory, so paths are kept as
written. -/
def pyExpanduser (s : PyStr) : PyStr := s

/-- FlagValues.ExtractFilename: the filename of a directive of the equals
form; any other shape raises FlagsError. -/
def extractFilename (t : PyStr) : Except GError PyStr :=
  if pyStartsWith t ffEqL then .ok (pyExpanduser (pyStrip (t.drop 11)))
  else if pyStartsWith t fEqL then .ok (pyExpanduser (pyStrip (t.drop 10)))
  else .error (.flagsError t)

/-- The file input available to the expander: filename to raw readlines
output. -/
abbrev FileSys := List (PyStr × List PyStr)

def lookupFile : FileSys → PyStr → Option (List PyStr)
  | [], _ => none
  | (n, ls) :: rest, fn => if n = fn then some ls else lookupFile rest fn

/-- The number of filenames of the file system that are not yet on the
recursion stack; the termination measure of the flagfile expansion. -/
def freshCount (fs : FileSys) (stack : List PyStr) : Nat :=
  ((fs.map Prod.fst).filter (fun n => !(stack.contains n))).length

mutual

/-- FlagValues.__GetFlagFileLines: the useful lines of a flagfile, with nested
directives expanded in place.  A filename already on the in-flight stack
contributes an empty list (the Python code also emits a diagnostic on stderr,
which the model elides); an unknown filename raises CantOpenFlagFileError. -/
def getFlagFileLines (fs : FileSys) (stack : List PyStr) (filename : PyStr) :
    Except GError (List PyStr) :=
  if h : stack.contains filename then .ok []
  else
    match hl : lookupFile fs filename with
    | none => .error .cantOpenFlagFileError
    | some lines => getFlagFileLinesList fs (stack ++ [filename]) lines
termination_by (freshCount fs stack, 0)
decreasing_by
  apply Prod.Lex.left
  have key : ∀ (l : FileSys), lookupFile l filename = some lines →
      filename ∈ l.map Prod.fst := by
    intro l
    induction l with
    | nil => intro hc; simp [lookupFile] at hc
    | cons q rest ih =>
      intro hc
      obtain ⟨n, ls⟩ := q
      by_cases hn : n = filename
      · simp [hn]
      · simp only [lookupFile, if_neg hn] at hc
        simpa using Or.inr (ih hc)
  have hmem := key fs hl
  have hnot : stack.contains filename = false := by simpa using h
  have hsub : ((fs.map Prod.fst).filter (fun n => !((stack ++ [filename]).contains n))).Sublist
      ((fs.map Prod.fst).filter (fun n => !(stack.contains n))) := by
    apply List.monotone_filter_right
    intro a ha
    simp only [List.elem_eq_mem, List.mem_append, List.mem_singleton,
      Bool.not_eq_true', decide_eq_false_iff_not] at ha ⊢
    intro hc
    exact ha (Or.inl hc)
  have hin : filename ∈ (fs.map Prod.fst).filter (fun n => !(stack.contains n)) := by
    apply List.mem_filter.mpr
    refine ⟨hmem, ?_⟩
    simpa [List.elem_eq_mem] using hnot
  have hnin : filename ∉
      (fs.map Prod.fst).filter (fun n => !((stack ++ [filename]).contains n)) := by
    intro hcontra
    have hpred := (List.mem_filter.mp hcontra).2
    simp [List.elem_eq_mem] at hpred
  unfold freshCount
  rcases Nat.lt_or_ge
      ((fs.map Prod.fst).filter (fun n => !((stack ++ [filename]).contains n))).length
      ((fs.map Prod.fst).filter (fun n => !(stack.contains n))).length with hlt | hge
  · exact hlt
  · exfalso
    have heq := hsub.eq_of_length (Nat.le_antisymm hsub.length_le hge)
    exact hnin (heq ▸ hin)

/-- The per-line filtering loop of __GetFlagFileLines: whitespace-only lines
and comment lines are dropped, nested directives are recursively expanded,
and every other line is kept stripped. -/
def getFlagFileLinesList (fs : FileSys) (stack : List PyStr) (lines : List PyStr) :
    Except GError (List PyStr) :=
  match lines with
  | [] => .ok []
  | line :: rest =>
    if pyIsSpace line then getFlagFileLinesList fs stack rest
    else if pyStartsWith line ['#'] || pyStartsWith line ['/', '/'] then
      getFlagFileLinesList fs stack rest
    else if isFlagFileDirective line then
      match extractFilename line with
      | .error e => .error e
      | .ok sub =>
        match getFlagFileLines fs stack sub with
        | .error e => .error e
        | .ok inc =>
          match getFlagFileLinesList fs stack rest with
          | .error e => .error e
          | .ok tail => .ok (inc ++ tail)
    else
      match getFlagFileLinesList fs stack rest with
      | .error e => .error e
      | .ok tail => .ok (pyStrip line :: tail)
termination_by (freshCount fs stack, lines.length + 1)
decreasing_by
  all_goals (apply Prod.Lex.right; simp only [List.length_cons]; omega)

end

/-- FlagValues.ReadFlagsFromFiles: replace flagfile directives by the filtered
file lines, keep two-token non-boolean flag values attached, and stop copying
at a bare double dash or (outside GNU modes) at the first positional token. -/
def readFlagsFromFiles (fs : FileSys) (gnu force_gnu : Bool) (fd : PyStr → Option Nat)
    (heap : Nat → Flag) (args : List PyStr) : Except GError (List PyStr) :=
  match args with
  | [] => .ok []
  | current :: rest =>
    if isFlagFileDirective current then
      if current = ffL || current = fL then
        match rest with
        | [] => .error .illegalFlagValue
        | fn :: rest2 =>
          match getFlagFileLines fs [] (pyExpanduser fn) with
          | .error e => .error e
          | .ok lines =>
            match readFlagsFromFiles fs gnu force_gnu fd heap rest2 with
            | .error e => .error e
            | .ok r => .ok (lines ++ r)
      else
        match extractFilename current with
        | .error e => .error e
        | .ok fn =>
          match getFlagFileLines fs [] fn with
          | .error e => .error e
          | .ok lines =>
            match readFlagsFromFiles fs gnu force_gnu fd heap rest with
            | .error e => .error e
            | .ok r => .ok (lines ++ r)
    else if current = dashdashL then .ok (current :: rest)
    else if pyStartsWith current dashL = false then
      if !force_gnu && !gnu then .ok (current :: rest)
      else
        match readFlagsFromFiles fs gnu force_gnu fd heap rest with
        | .error e => .error e
        | .ok r => .ok (current :: r)
    else
      match rest with
      | [] => .ok [current]
      | v :: rest2 =>
        if !(current.contains '=') && !(pyStartsWith v dashL) then
          match fd (pyLStripDash current) with
          | some fid =>
            if !(heap fid).boolean then
              match readFlagsFromFiles fs gnu force_gnu fd heap rest2 with
              | .error e => .error e
              | .ok r => .ok (current :: v :: r)
            else
              match readFlagsFromFiles fs gnu force_gnu fd heap (v :: rest2) with
              | .error e => .error e
              | .ok r => .ok (current :: r)
          | none =>
            match readFlagsFromFiles fs gnu force_gnu fd heap (v :: rest2) with
            | .error e => .error e
            | .ok r => .ok (current :: r)
        else
          match readFlagsFromFiles fs gnu force_gnu fd heap (v :: rest2) with
          | .error e => .error e
          | .ok r => .ok (current :: r)

/-- The outcome of a top-level FLAGS(argv) call: the heap of flag objects
after the call (the Python code mutates them in place, so they keep their
state even when the call raises), the trace of Parse invocations, the final
parsed marker, and the returned argument list or the raised error. -/
structure CallResult where
  heap : Nat → Flag
  trace : List (Nat × PValue)
  parsed : Bool
  result : Except GError (List PyStr)

/-- FlagValues.__call__: empty input marks parsed and returns the empty list;
otherwise the tail of argv is expanded, scanned, the first unknown flag not in
the undefok set raises UnrecognizedFlagError, and on success the registry is
marked parsed and the program name plus the unparsed tokens are returned.
Validator assertion is a no-op in the model (the validator objects are outside
the covered source, and no claim involves them). -/
def callFV (fs : FileSys) (s : FlagValues) (argv : List PyStr) : CallResult :=
  match argv with
  | [] => ⟨s.heap, [], true, .ok []⟩
  | prog :: args =>
    match readFlagsFromFiles fs s.use_gnu_getopt false s.flags s.heap args with
    | .error e => ⟨s.heap, [], s.flags_parsed, .error e⟩
    | .ok expanded =>
      let r := parseArgsLoop s.use_gnu_getopt s.flags s.heap expanded
      match r.2.2 with
      | .error e => ⟨r.1, r.2.1, s.flags_parsed, .error e⟩
      | .ok o =>
        match o.1.find? (fun p => !(o.2.2.contains p.1)) with
        | some p => ⟨r.1, r.2.1, s.flags_parsed, .error (.unrecognizedFlagError p.1 p.2)⟩
        | none => ⟨r.1, r.2.1, true, .ok (prog :: o.2.1)⟩

/- ----------------------------------------------------------------- -/
/- Attribute access and deletion.                                     -/
/- ----------------------------------------------------------------- -/

/-- FlagValues.__getattr__: unknown or hidden names raise AttributeError; once
parsed, or for an explicitly set flag, the stored value is returned; otherwise
the access-before-parse policy applies: permissive access (the environment
toggle at its default) returns the stored value after logging, strict access
raises UnparsedFlagAccessError. -/
def getattrFV (s : FlagValues) (allowUnparsedAccess : Bool) (name : PyStr) :
    Except GError PValue :=
  match s.flags name with
  | none => .error (.attributeError name)
  | some fid =>
    if s.hiddenflags.contains name then .error (.attributeError name)
    else if s.flags_parsed || (s.heap fid).present then .ok (s.heap fid).value
    else if allowUnparsedAccess then .ok (s.heap fid).value
    else .error .unparsedFlagAccessError

/-- FlagValues._FlagIsRegistered: the flag object is still reachable under its
long name or under its short name. -/
def flagIsRegistered (flags : PyStr → Option Nat) (heap : Nat → Flag) (fid : Nat) :
    Bool :=
  flags (heap fid).name == some fid ||
    (match (heap fid).short_name with
     | some sn => flags sn == some fid
     | none => false)

/-- The purge loop of __delattr__: every occurrence of the flag object is
removed from every per-module list. -/
def purgeModuleDict {κ : Type} (d : List (κ × List Nat)) (fid : Nat) :
    List (κ × List Nat) :=
  d.map fun p => (p.1, p.2.filter (fun i => i != fid))

/-- FlagValues.__delattr__: delete the single key; when the flag object is no
longer reachable under any of its names, purge it from the three module
indices. -/
def delattrFV (s : FlagValues) (name : PyStr) : Except GError FlagValues :=
  match s.flags name with
  | none => .error (.attributeError name)
  | some fid =>
    let flags2 := mapRemove s.flags name
    if flagIsRegistered flags2 s.heap fid then .ok { s with flags := flags2 }
    else .ok { s with
      flags := flags2,
      flags_by_module := purgeModuleDict s.flags_by_module fid,
      flags_by_module_id := purgeModuleDict s.flags_by_module_id fid,
      key_flags_by_module := purgeModuleDict s.key_flags_by_module fid }

/- ----------------------------------------------------------------- -/
/- Shortest unique prefixes.                                          -/
/- ----------------------------------------------------------------- -/

/-- Lexicographic string order by code point, as list.sort uses. -/
def pyStrLe : PyStr → PyStr → Bool
  | [], _ => true
  | _ :: _, [] => false
  | a :: as, b :: bs => if a = b then pyStrLe as bs else decide (a < b)

/-- Stable insertion into a sorted list. -/
def pyInsert (x : PyStr) : List PyStr → List PyStr
  | [] => [x]
  | y :: rest => if pyStrLe y x then y :: pyInsert x rest else x :: y :: rest

/-- Ascending sort of a list of strings, modelling list.sort. -/
def pySortStrs : List PyStr → List PyStr
  | [] => []
  | x :: rest => pyInsert x (pySortStrs rest)

/-- The break test of the inner loop of ShortestUniquePrefixes: no successor,
index beyond the successor, or differing characters at the index. -/
def supBreakCond (curr : PyStr) (nextOpt : Option PyStr) (idx : Nat) : Bool :=
  match nextOpt with
  | none => true
  | some nxt => decide (nxt.length ≤ idx) || (curr.getD idx ' ' != nxt.getD idx ' ')

/-- The inner character loop of ShortestUniquePrefixes, iterating the index
over the characters of the current name (the list argument is the remaining
suffix, so the loop ends exactly when the index reaches the length).  On
break, the assigned prefix and the index are produced; when the loop runs out,
the whole name is assigned and the carried index becomes the name length. -/
def supInnerGo (curr : PyStr) (nextOpt : Option PyStr) (p : Nat) (idx : Nat) :
    PyStr → PyStr × Nat
  | [] => (curr, curr.length)
  | _ :: rem =>
    if supBreakCond curr nextOpt idx then (curr.take (max p idx + 1), idx)
    else supInnerGo curr nextOpt p (idx + 1) rem

/-- One iteration of the outer loop of ShortestUniquePrefixes: the assigned
prefix of the current name against its successor, and the carried prefix
length for the next iteration. -/
def supInner (curr : PyStr) (nextOpt : Option PyStr) (p : Nat) : PyStr × Nat :=
  supInnerGo curr nextOpt p 0 curr

/-- The outer loop of ShortestUniquePrefixes over the sorted name list. -/
def supLoop : List PyStr → Nat → List (PyStr × PyStr)
  | [], _ => []
  | c :: rest, p =>
    let pr := supInner c rest.head? p
    (c, pr.1) :: supLoop rest pr.2

/-- The boolean-doubled name list of ShortestUniquePrefixes: every name, and
additionally the negated form of every boolean flag. -/
def boolDoubledNames (fl : List (PyStr × Flag)) : List PyStr :=
  fl.foldr (fun q acc => if q.2.boolean then q.1 :: (noL ++ q.1) :: acc else q.1 :: acc) []

/-- FlagValues.ShortestUniquePrefixes. -/
def shortestUniquePrefixes (fl : List (PyStr × Flag)) : List (PyStr × PyStr) :=
  supLoop (pySortStrs (boolDoubledNames fl)) 0

/-- The length of the longest common prefix of two strings. -/
def lcpLen : PyStr → PyStr → Nat
  | a :: as, b :: bs => if a = b then lcpLen as bs + 1 else 0
  | _, _ => 0

/-- The longest common prefix with an optional successor. -/
def optLcp (c : PyStr) : Option PyStr → Nat
  | none => 0
  | some n => lcpLen c n

/-- Follows the wording of the spec, not the code: each name receives its
shortest left-substring that is not shared as a prefix with its immediate
lexicographic neighbors.  Against the successor, the shortest such substring
has the length of the common prefix plus one; the constraint against the
predecessor is carried forward as the common-prefix length of the previous
comparison; List.take clamps at the full name when no shorter distinguishing
substring exists. -/
def specNeighborPrefixes : Nat → List PyStr → List (PyStr × PyStr)
  | _, [] => []
  | p, c :: rest =>
    (c, c.take (max p (optLcp c rest.head?) + 1)) ::
      specNeighborPrefixes (optLcp c rest.head?) rest

/- ----------------------------------------------------------------- -/
/- Concrete inputs used by witnesses and counterexamples.             -/
/- ----------------------------------------------------------------- -/

def cxL : PyStr := ['x']
def cmL : PyStr := ['m']

/-- A non-boolean flag named x at its default; the neutral building block of
the concrete registries below. -/
def baseFlag : Flag :=
  { name := cxL, short_name := none, boolean := false, allow_override := false,
    using_default_value := true, present := false,
    value := PValue.pbool false, default_value := PValue.pbool false }

/-- An explicitly set occupant of the key x. -/
def oldFlagCex : Flag :=
  { baseFlag with
    using_default_value := false
    present := true
    value := PValue.pstr ['o'] }

/-- A default-valued redefinition of x whose short name is x itself and which
permits override. -/
def newFlagCex : Flag :=
  { baseFlag with
    short_name := some cxL
    allow_override := true }

/-- The registry of the C1 counterexample: key x holds flag 0 (explicitly
set); flag 1 is the incoming redefinition. -/
def sCex : FlagValues :=
  { flags := fun k => if k = cxL then some 0 else none,
    heap := fun i => if i = 0 then oldFlagCex else newFlagCex,
    hiddenflags := [], flags_by_module := [], flags_by_module_id := [],
    key_flags_by_module := [], flags_parsed := false, use_gnu_getopt := false }

/-- An empty registry whose heap holds baseFlag everywhere. -/
def sEmpty : FlagValues :=
  { flags := fun _ => none, heap := fun _ => baseFlag,
    hiddenflags := [], flags_by_module := [], flags_by_module_id := [],
    key_flags_by_module := [], flags_parsed := false, use_gnu_getopt := false }

/-- The registry resulting from registering baseFlag (id 0) under x in the
empty registry. -/
def sEmptyReg : FlagValues :=
  { sEmpty with flags := setitemFinish sEmpty sEmpty.flags cxL 0 }

def fnameC5 : PyStr := "f5".toList
def linesC5 : List PyStr :=
  ["--a=1\n".toList, "# comment\n".toList, "\n".toList, "--b=2\n".toList]
def fsC5 : FileSys := [(fnameC5, linesC5)]
def tokA1 : PyStr := "--a=1".toList
def tokB2 : PyStr := "--b=2".toList

def fnameC6 : PyStr := "f6".toList
def fsC6 : FileSys := [(fnameC6, ["--flagfile=f6\n".toList, "--x=1\n".toList])]
def tokX1 : PyStr := "--x=1".toList

def csL : PyStr := ['s']

/-- The explicitly set occupant of x for the short-name divergence: it also
carries the short name s. -/
def oldFlagC10 : Flag := { oldFlagCex with short_name := some csL }

/-- The incoming default-valued redefinition of x carrying short name s and
override permission. -/
def newFlagC10 : Flag :=
  { baseFlag with
    short_name := some csL
    allow_override := true }

/-- The registry of the C10 scenario: both x and s resolve to flag 0. -/
def sC10 : FlagValues :=
  { sEmpty with
    flags := fun k => if k = cxL || k = csL then some 0 else none
    heap := fun i => if i = 0 then oldFlagC10 else newFlagC10 }

/-- Discriminator for the unrecognized-flag error, used to state that the
expansion and scanning phases never raise it themselves. -/
def isUnrecErr : GError → Bool
  | .unrecognizedFlagError _ _ => true
  | _ => false

/-- A registry holding only baseFlag (id 0) under the key x. -/
def sC8 : FlagValues :=
  { sEmpty with flags := fun k => if k = cxL then some 0 else none }

/-- A registry holding baseFlag (id 0) under the key x, with flag 0 recorded
in each module index of module m. -/
def sC9 : FlagValues :=
  { sEmpty with
    flags := fun k => if k = cxL then some 0 else none
    flags_by_module := [(cmL, [0])]
    flags_by_module_id := [(0, [0])]
    key_flags_by_module := [(cmL, [0])] }

def cbL : PyStr := ['b']
def pL : PyStr := ['p']
def nUnk : PyStr := ['q']
def aL : PyStr := ['a']
def zzL : PyStr := ['z', 'z']
def tokA1c : PyStr := "--a=1".toList
def tokZZ : PyStr := "--zz".toList

/-- A registry holding the non-boolean flag 0 under the key a. -/
def sC4 : FlagValues :=
  { sEmpty with flags := fun k => if k = aL then some 0 else none }

def argvC4 : List PyStr := [pL, tokA1c, tokZZ]

def alphaL : PyStr := "alpha".toList
def alphabetL : PyStr := "alphabet".toList
def betaL : PyStr := "beta".toList

/-- The three-name registry of the shortest-unique-prefix example. -/
def fl3 : List (PyStr × Flag) :=
  [(alphaL, baseFlag), (alphabetL, baseFlag), (betaL, baseFlag)]

/-- A boolean flag named b at its default. -/
def boolFlagW : Flag :=
  { baseFlag with
    name := cbL
    boolean := true }

/-- A one-entry flag dictionary binding b to id 0. -/
def fdW : PyStr → Option Nat := fun k => if k = cbL then some 0 else none

/-- A heap holding boolFlagW everywhere. -/
def heapW : Nat → Flag := fun _ => boolFlagW

/- ----------------------------------------------------------------- -/
/- Helper lemmas: flagfile expansion.                                 -/
/- ----------------------------------------------------------------- -/

theorem gfflList_nil (fs : FileSys) (stack : List PyStr) :
    getFlagFileLinesList fs stack [] = .ok [] := by
  rw [getFlagFileLinesList]

theorem gfflList_space (fs : FileSys) (stack : List PyStr) (line : PyStr)
    (rest : List PyStr) (h1 : pyIsSpace line = true) :
    getFlagFileLinesList fs stack (line :: rest) = getFlagFileLinesList fs stack rest := by
  rw [getFlagFileLinesList]
  simp [h1]

theorem gfflList_comment (fs : FileSys) (stack : List PyStr) (line : PyStr)
    (rest : List PyStr) (h1 : pyIsSpace line = false)
    (h2 : (pyStartsWith line ['#'] || pyStartsWith line ['/', '/']) = true) :
    getFlagFileLinesList fs stack (line :: rest) = getFlagFileLinesList fs stack rest := by
  rw [getFlagFileLinesList]
  simp [h1, h2]

theorem gfflList_keep (fs : FileSys) (stack : List PyStr) (line : PyStr)
    (rest : List PyStr) (h1 : pyIsSpace line = false)
    (h2 : (pyStartsWith line ['#'] || pyStartsWith line ['/', '/']) = false)
    (h3 : isFlagFileDirective line = false) :
    getFlagFileLinesList fs stack (line :: rest) =
      match getFlagFileLinesList fs stack rest with
      | .error e => .error e
      | .ok tail => .ok (pyStrip line :: tail) := by
  rw [getFlagFileLinesList]
  simp [h1, h2, h3]

theorem gfflList_directive (fs : FileSys) (stack : List PyStr) (line : PyStr)
    (rest : List PyStr) (sub : PyStr) (h1 : pyIsSpace line = false)
    (h2 : (pyStartsWith line ['#'] || pyStartsWith line ['/', '/']) = false)
    (h3 : isFlagFileDirective line = true)
    (h4 : extractFilename line = .ok sub) :
    getFlagFileLinesList fs stack (line :: rest) =
      match getFlagFileLines fs stack sub with
      | .error e => .error e
      | .ok inc =>
        match getFlagFileLinesList fs stack rest with
        | .error e => .error e
        | .ok tail => .ok (inc ++ tail) := by
  rw [getFlagFileLinesList]
  simp [h1, h2, h3, h4]

theorem gffl_cycle_step (fs : FileSys) (stack : List PyStr) (filename : PyStr)
    (h : stack.contains filename = true) :
    getFlagFileLines fs stack filename = .ok [] := by
  rw [getFlagFileLines, dif_pos h]

theorem gffl_open (fs : FileSys) (stack : List PyStr) (filename : PyStr)
    (lines : List PyStr) (h : stack.contains filename = false)
    (hl : lookupFile fs filename = some lines) :
    getFlagFileLines fs stack filename =
      getFlagFileLinesList fs (stack ++ [filename]) lines := by
  rw [getFlagFileLines]
  split
  · simp_all
  · split
    · simp_all
    · rename_i hl2
      rw [hl] at hl2
      cases hl2
      rfl

/-- The filtering characterization of the line loop when no line is a nested
directive. -/
theorem gfflList_no_directives (fs : FileSys) (stack : List PyStr)
    (lines : List PyStr) (h : ∀ l ∈ lines, isFlagFileDirective l = false) :
    getFlagFileLinesList fs stack lines =
      .ok ((lines.filter fun l =>
        !(pyIsSpace l) && !(pyStartsWith l ['#'] || pyStartsWith l ['/', '/'])).map
          pyStrip) := by
  induction lines with
  | nil => simp [gfflList_nil]
  | cons line rest ih =>
    have hline := h line (List.mem_cons_self line rest)
    have hrest : ∀ l ∈ rest, isFlagFileDirective l = false :=
      fun l hl => h l (List.mem_cons_of_mem line hl)
    by_cases h1 : pyIsSpace line = true
    · have hcond : (!(pyIsSpace line) &&
          !(pyStartsWith line ['#'] || pyStartsWith line ['/', '/'])) = false := by
        rw [h1]; rfl
      rw [gfflList_space fs stack line rest h1, ih hrest, List.filter_cons, hcond,
        if_neg (by decide)]
    · have h1' : pyIsSpace line = false := by simpa using h1
      by_cases h2 : (pyStartsWith line ['#'] || pyStartsWith line ['/', '/']) = true
      · have hcond : (!(pyIsSpace line) &&
            !(pyStartsWith line ['#'] || pyStartsWith line ['/', '/'])) = false := by
          rw [h1', h2]; rfl
        rw [gfflList_comment fs stack line rest h1' h2, ih hrest, List.filter_cons, hcond,
          if_neg (by decide)]
      · have h2' : (pyStartsWith line ['#'] || pyStartsWith line ['/', '/']) = false := by
          simpa using h2
        have hcond : (!(pyIsSpace line) &&
            !(pyStartsWith line ['#'] || pyStartsWith line ['/', '/'])) = true := by
          rw [h1', h2']; rfl
        rw [gfflList_keep fs stack line rest h1' h2' hline, ih hrest, List.filter_cons,
          hcond, if_pos rfl]
        rfl

/-- Claim C5: a flagfile none of whose lines is a nested directive expands to
exactly its non-blank, non-comment lines, stripped, in order; in particular
the file with lines --a=1, a comment line, a blank line and --b=2 expands to
exactly the two tokens --a=1 and --b=2. -/
theorem flagfile_filter_lines (fs : FileSys) (f : PyStr) (lines : List PyStr)
    (hl : lookupFile fs f = some lines)
    (hnd : ∀ l ∈ lines, isFlagFileDirective l = false) :
    getFlagFileLines fs [] f =
      .ok ((lines.filter fun l =>
        !(pyIsSpace l) && !(pyStartsWith l ['#'] || pyStartsWith l ['/', '/'])).map
          pyStrip) ∧
    getFlagFileLines fsC5 [] fnameC5 = .ok [tokA1, tokB2] := by
  constructor
  · rw [gffl_open fs [] f lines rfl hl, gfflList_no_directives fs ([] ++ [f]) lines hnd]
  · rw [gffl_open fsC5 [] fnameC5 linesC5 rfl rfl,
      gfflList_no_directives fsC5 ([] ++ [fnameC5]) linesC5 (by decide)]
    decide

/-- Witness for C5 at the concrete flagfile. -/
theorem flagfile_filter_lines_witness :
    getFlagFileLines fsC5 [] fnameC5 =
      .ok ((linesC5.filter fun l =>
        !(pyIsSpace l) && !(pyStartsWith l ['#'] || pyStartsWith l ['/', '/'])).map
          pyStrip) :=
  (flagfile_filter_lines fsC5 fnameC5 linesC5 rfl (by decide)).1

/-- Claim C6: flagfile expansion terminates on cyclic inclusions because a
filename already on the in-flight stack contributes an empty line list; in
particular a file that includes itself expands to its own useful lines with
the self-inclusion contributing nothing. -/
theorem flagfile_cycle_ignored (fs : FileSys) (stack : List PyStr) (f : PyStr)
    (h : stack.contains f = true) :
    getFlagFileLines fs stack f = .ok [] ∧
    getFlagFileLines fsC6 [] fnameC6 = .ok [tokX1] := by
  refine ⟨gffl_cycle_step fs stack f h, ?_⟩
  rw [gffl_open fsC6 [] fnameC6 _ rfl rfl,
    gfflList_directive fsC6 ([] ++ [fnameC6]) _ _ fnameC6 (by decide) (by decide)
      (by decide) (by decide),
    gffl_cycle_step fsC6 ([] ++ [fnameC6]) fnameC6 (by decide),
    gfflList_keep fsC6 ([] ++ [fnameC6]) _ _ (by decide) (by decide) (by decide),
    gfflList_nil]
  decide

/-- Witness for C6: the cycle rule applied at the concrete self-including
file. -/
theorem flagfile_cycle_ignored_witness :
    getFlagFileLines fsC6 [fnameC6] fnameC6 = .ok [] :=
  (flagfile_cycle_ignored fsC6 [fnameC6] fnameC6 (by decide)).1

/- ----------------------------------------------------------------- -/
/- Helper lemmas: registration.                                       -/
/- ----------------------------------------------------------------- -/

theorem mapSet_same (m : PyStr → Option Nat) (k : PyStr) (v : Nat) :
    mapSet m k v k = some v := by
  simp [mapSet]

theorem mapSet_other (m : PyStr → Option Nat) (k k' : PyStr) (v : Nat)
    (h : ¬k' = k) : mapSet m k v k' = m k' := by
  simp [mapSet, h]

theorem setitemFinish_at (s : FlagValues) (fl1 : PyStr → Option Nat) (name : PyStr)
    (fid : Nat) :
    setitemFinish s fl1 name fid name =
      if ((match fl1 name with
          | some eid => (s.heap eid).using_default_value
          | none => true) || !(s.heap fid).using_default_value) = true
      then some fid else fl1 name := by
  by_cases hg : ((match fl1 name with
      | some eid => (s.heap eid).using_default_value
      | none => true) || !(s.heap fid).using_default_value) = true
  · rw [setitemFinish, if_pos hg, if_pos hg]
    exact mapSet_same fl1 name fid
  · rw [setitemFinish, if_neg hg, if_neg hg]

/-- The content of the replacement policy, phrased on the value the final
dictionary holds at the registered name. -/
theorem setitem_replacement_core (s : FlagValues) (name : PyStr) (fid : Nat)
    (res : Option Nat)
    (key : res = if ((match s.flags name with
        | some eid => (s.heap eid).using_default_value
        | none => true) || !(s.heap fid).using_default_value) = true
      then some fid else s.flags name) :
    (res = some fid ↔
      (s.flags name = none ∨
       (∃ eid, s.flags name = some eid ∧ (s.heap eid).using_default_value = true) ∨
       (s.heap fid).using_default_value = false)) ∧
    (∀ eid, s.flags name = some eid → (s.heap eid).using_default_value = false →
      (s.heap fid).using_default_value = true → res = some eid) := by
  rcases hsf : s.flags name with _ | eid
  · rw [hsf] at key
    simp only [Bool.true_or, if_pos rfl] at key
    refine ⟨⟨fun _ => Or.inl rfl, fun _ => key⟩, ?_⟩
    intro eid heq _ _
    exact Option.noConfusion heq
  · rw [hsf] at key
    by_cases hu : (s.heap eid).using_default_value = true
    · simp only [hu, Bool.true_or, if_pos rfl] at key
      refine ⟨⟨fun _ => Or.inr (Or.inl ⟨eid, rfl, hu⟩), fun _ => key⟩, ?_⟩
      intro eid' heq hu' _
      cases heq
      rw [hu] at hu'
      cases hu'
    · have hu' : (s.heap eid).using_default_value = false := by
        simpa using hu
      by_cases hf : (s.heap fid).using_default_value = true
      · simp only [hu', hf, Bool.not_true, Bool.or_false] at key
        simp at key
        constructor
        · constructor
          · intro hr
            rw [key] at hr
            cases hr
            rw [hu'] at hf
            cases hf
          · intro hrhs
            rcases hrhs with h1 | ⟨e, he, hude⟩ | h3
            · exact Option.noConfusion h1
            · cases he
              rw [hu'] at hude
              cases hude
            · rw [hf] at h3; cases h3
        · intro eid' heq _ _
          cases heq
          exact key
      · have hf' : (s.heap fid).using_default_value = false := by
          simpa using hf
        simp only [hf', Bool.not_false, Bool.or_true, if_pos rfl] at key
        refine ⟨⟨fun _ => Or.inr (Or.inr hf'), fun _ => key⟩, ?_⟩
        intro eid' heq _ hfu
        rw [hf'] at hfu
        cases hfu

/-- Claim C1 (corrected, amended with: the incoming flag's short name, when
present, differs from the registered long name): for a registration that
passes the collision checks and is not the silent re-import skip, the long
name is bound to the incoming flag exactly when the key is new, or the
existing occupant is still at its default, or the incoming flag is not at its
default; otherwise the existing entry at the key is kept. -/
theorem setitem_replacement (s : FlagValues) (name : PyStr) (fid : Nat)
    (cn : PyStr) (ci : Int) (s' : FlagValues)
    (hne : ¬name = [])
    (hsn : ¬(s.heap fid).short_name = some name)
    (hdup : setitemDupCond s name (s.heap fid) = false)
    (hok : setitem s name fid cn ci = .ok s') :
    (s'.flags name = some fid ↔
      (s.flags name = none ∨
       (∃ eid, s.flags name = some eid ∧ (s.heap eid).using_default_value = true) ∨
       (s.heap fid).using_default_value = false)) ∧
    (∀ eid, s.flags name = some eid → (s.heap eid).using_default_value = false →
      (s.heap fid).using_default_value = true → s'.flags name = some eid) := by
  simp only [setitem] at hok
  rw [if_neg hne, if_neg (by simp [hdup])] at hok
  split at hok
  · -- incoming flag holds a short name sn
    rename_i sn hsnc
    split at hok
    · cases hok
    · rename_i hsdup
      cases hok
      have hns : ¬name = sn := by
        intro h
        exact hsn (by rw [hsnc, h])
      have key : setitemFinish s (mapSet s.flags sn fid) name fid name =
          if ((match s.flags name with
              | some eid => (s.heap eid).using_default_value
              | none => true) || !(s.heap fid).using_default_value) = true
          then some fid else s.flags name := by
        rw [setitemFinish_at, mapSet_other s.flags sn name fid hns]
      exact setitem_replacement_core s name fid _ key
  · -- no short name
    cases hok
    have key : setitemFinish s s.flags name fid name =
        if ((match s.flags name with
            | some eid => (s.heap eid).using_default_value
            | none => true) || !(s.heap fid).using_default_value) = true
        then some fid else s.flags name := setitemFinish_at s s.flags name fid
    exact setitem_replacement_core s name fid _ key

/-- Witness for the amended C1 at a concrete registration into the empty
registry. -/
theorem setitem_replacement_witness : sEmptyReg.flags cxL = some 0 :=
  (setitem_replacement sEmpty cxL 0 cmL 0 sEmptyReg (by decide) (by decide)
    (by decide) rfl).1.mpr (Or.inl rfl)

/-- Counterexample to claim C1 as stated: the incoming flag 1 is at its
default, passes the collision checks (it permits override, and the re-import
skip does not fire), and the occupant of x holds a non-default value, yet the
entry at x is replaced, because the short name of the incoming flag is x
itself and the short-name write rebinds the key before the replacement test
reads it. -/
theorem setitem_clobber_cex :
    (setitem sCex cxL 1 cmL 0).map (fun t => t.flags cxL) = .ok (some 1) ∧
    sCex.flags cxL = some 0 ∧
    (sCex.heap 0).using_default_value = false ∧
    (sCex.heap 1).using_default_value = true ∧
    (sCex.heap 1).short_name = some cxL ∧
    setitemDupCond sCex cxL (sCex.heap 1) = false ∧
    setitemReimportSkip sCex cxL cmL 0 = false ∧
    some (1 : Nat) ≠ some 0 := by
  decide

/-- Claim C10: registering a default-valued, override-permitted redefinition
of x carrying short name s over an explicitly set occupant rebinds the short
key s to the new flag unconditionally while the long key x keeps the old
flag, leaving the two keys mapped to two different flag objects. -/
theorem setitem_short_long_diverge :
    (setitem sC10 cxL 1 cmL 0).map (fun t => (t.flags cxL, t.flags csL)) =
      .ok (some 0, some 1) ∧
    sC10.flags cxL = some 0 ∧
    sC10.flags csL = some 0 ∧
    (sC10.heap 1).short_name = some csL ∧
    (sC10.heap 0).using_default_value = false ∧
    (sC10.heap 1).using_default_value = true ∧
    some (0 : Nat) ≠ some 1 := by
  decide

/-- Claim C8: attribute-style read of a registered, non-hidden flag that has
not been explicitly set returns the default value before the registry is
marked parsed in permissive mode (the default policy) and raises the
access-before-parse error in strict mode; once the registry is marked parsed
or the flag is explicitly set, the read returns the current value.  The
equality of value and default for a never-set flag is the Flag contract the
spec states (the Flag class is outside the covered source). -/
theorem getattr_access (s : FlagValues) (name : PyStr) (fid : Nat)
    (hreg : s.flags name = some fid)
    (hhid : s.hiddenflags.contains name = false) :
    ((s.heap fid).present = false → s.flags_parsed = false →
      (s.heap fid).value = (s.heap fid).default_value →
      getattrFV s true name = .ok (s.heap fid).default_value ∧
      getattrFV s false name = .error .unparsedFlagAccessError) ∧
    (s.flags_parsed = true ∨ (s.heap fid).present = true →
      ∀ b, getattrFV s b name = .ok (s.heap fid).value) := by
  have hhid' : name ∉ s.hiddenflags := by
    simpa [List.elem_eq_mem] using hhid
  constructor
  · intro hp hparsed hdef
    constructor
    · rw [← hdef]
      simp [getattrFV, hreg, hhid', hp, hparsed]
    · simp [getattrFV, hreg, hhid', hp, hparsed]
  · intro hor b
    rcases hor with hcase | hcase
    · simp [getattrFV, hreg, hhid', hcase]
    · simp [getattrFV, hreg, hhid', hcase]

/-- Witness for C8 at the concrete one-flag registry. -/
theorem getattr_access_witness :
    getattrFV sC8 true cxL = .ok ((sC8.heap 0).default_value) ∧
    getattrFV sC8 false cxL = .error .unparsedFlagAccessError :=
  (getattr_access sC8 cxL 0 (by decide) (by decide)).1 (by decide) (by decide) (by decide)

/-- Claim C9: __delattr__ removes exactly the given key; the three module
indices are purged exactly when, after the removal, neither the long name nor
the short name of the flag still resolves to it; deletion of an absent name
fails with the attribute-not-found error, and the registry state is only
produced on success, so nothing changes. -/
theorem delattr_spec (s : FlagValues) (name : PyStr) :
    (s.flags name = none → delattrFV s name = .error (.attributeError name)) ∧
    (∀ fid, s.flags name = some fid →
      ∃ s', delattrFV s name = .ok s' ∧
        s'.flags name = none ∧
        (∀ k, ¬k = name → s'.flags k = s.flags k) ∧
        s'.heap = s.heap ∧
        s'.hiddenflags = s.hiddenflags ∧
        s'.flags_parsed = s.flags_parsed ∧
        (flagIsRegistered s'.flags s.heap fid = true →
          s'.flags_by_module = s.flags_by_module ∧
          s'.flags_by_module_id = s.flags_by_module_id ∧
          s'.key_flags_by_module = s.key_flags_by_module) ∧
        (flagIsRegistered s'.flags s.heap fid = false →
          s'.flags_by_module = purgeModuleDict s.flags_by_module fid ∧
          s'.flags_by_module_id = purgeModuleDict s.flags_by_module_id fid ∧
          s'.key_flags_by_module = purgeModuleDict s.key_flags_by_module fid)) := by
  constructor
  · intro h
    simp [delattrFV, h]
  · intro fid h
    by_cases hr : flagIsRegistered (mapRemove s.flags name) s.heap fid = true
    · refine ⟨{ s with flags := mapRemove s.flags name }, ?_, ?_, ?_, rfl, rfl, rfl, ?_, ?_⟩
      · simp [delattrFV, h, hr]
      · simp [mapRemove]
      · intro k hk
        simp [mapRemove, hk]
      · intro _
        exact ⟨rfl, rfl, rfl⟩
      · intro hf
        rw [show ({ s with flags := mapRemove s.flags name } : FlagValues).flags =
          mapRemove s.flags name from rfl] at hf
        rw [hr] at hf
        cases hf
    · have hr' : flagIsRegistered (mapRemove s.flags name) s.heap fid = false := by
        simpa using hr
      refine ⟨{ s with
          flags := mapRemove s.flags name,
          flags_by_module := purgeModuleDict s.flags_by_module fid,
          flags_by_module_id := purgeModuleDict s.flags_by_module_id fid,
          key_flags_by_module := purgeModuleDict s.key_flags_by_module fid },
        ?_, ?_, ?_, rfl, rfl, rfl, ?_, ?_⟩
      · simp [delattrFV, h, hr']
      · simp [mapRemove]
      · intro k hk
        simp [mapRemove, hk]
      · intro hf
        rw [show ({ s with
            flags := mapRemove s.flags name,
            flags_by_module := purgeModuleDict s.flags_by_module fid,
            flags_by_module_id := purgeModuleDict s.flags_by_module_id fid,
            key_flags_by_module := purgeModuleDict s.key_flags_by_module fid } :
          FlagValues).flags = mapRemove s.flags name from rfl] at hf
        rw [hr'] at hf
        cases hf
      · intro _
        exact ⟨rfl, rfl, rfl⟩

/-- Witness for C9 at the concrete registry: deleting x succeeds and empties
the key. -/
theorem delattr_spec_witness :
    ∃ s', delattrFV sC9 cxL = .ok s' ∧ s'.flags cxL = none := by
  obtain ⟨s', h1, h2, _⟩ := (delattr_spec sC9 cxL).2 0 (by decide)
  exact ⟨s', h1, h2⟩

/- ----------------------------------------------------------------- -/
/- Helper lemmas: token shapes.                                       -/
/- ----------------------------------------------------------------- -/

theorem startsWith_dd (B : PyStr) : pyStartsWith (dashdashL ++ B) dashL = true := rfl

theorem startsWith_ddno (B : PyStr) :
    pyStartsWith (dashdashL ++ (noL ++ B)) dashL = true := rfl

theorem dd_append_ne (B : PyStr) (h : ¬B = []) : ¬(dashdashL ++ B) = dashdashL := by
  intro hc
  apply h
  have hlen := congrArg List.length hc
  simp [dashdashL] at hlen
  exact hlen

theorem lstrip_dd (B : PyStr) : pyLStripDash (dashdashL ++ B) = pyLStripDash B := rfl

theorem lstrip_ddno (B : PyStr) :
    pyLStripDash (dashdashL ++ (noL ++ B)) = noL ++ B := rfl

theorem contains_eq_dd (B : PyStr) :
    (dashdashL ++ B).contains '=' = B.contains '=' := rfl

theorem contains_eq_ddno (B : PyStr) :
    (dashdashL ++ (noL ++ B)).contains '=' = B.contains '=' := rfl

theorem splitTok_ddB (B : PyStr) (hB : B.contains '=' = false)
    (hstrip : pyLStripDash B = B) :
    pySplitTok (dashdashL ++ B) = (B, none) := by
  have hc : ¬((dashdashL ++ B).contains '=') = true := by
    rw [contains_eq_dd, hB]
    exact Bool.false_ne_true
  rw [pySplitTok, if_neg hc, lstrip_dd, hstrip]

theorem splitTok_ddnoB (B : PyStr) (hB : B.contains '=' = false) :
    pySplitTok (dashdashL ++ (noL ++ B)) = (noL ++ B, none) := by
  have hc : ¬((dashdashL ++ (noL ++ B)).contains '=') = true := by
    rw [contains_eq_ddno, hB]
    exact Bool.false_ne_true
  rw [pySplitTok, if_neg hc, lstrip_ddno]

theorem splitTok_undefokEq (v : PyStr) :
    pySplitTok (dashdashL ++ undefokName ++ '=' :: v) = (undefokName, some v) := rfl

theorem splitTok_undefokBare :
    pySplitTok (dashdashL ++ undefokName) = (undefokName, none) := rfl

theorem drop_noL (B : PyStr) : (noL ++ B).drop 2 = B := rfl

theorem startsWith_no_noB (B : PyStr) : pyStartsWith (noL ++ B) noL = true := by
  simp [pyStartsWith, noL, List.isPrefixOf]

/- ----------------------------------------------------------------- -/
/- Helper lemmas: one step of the scanning loop.                      -/
/- ----------------------------------------------------------------- -/

theorem loop_nil (gnu : Bool) (fd : PyStr → Option Nat) (heap : Nat → Flag) :
    parseArgsLoop gnu fd heap [] = (heap, [], .ok ([], [], [])) := by
  rw [parseArgsLoop]

theorem loop_registered_bool (gnu : Bool) (fd : PyStr → Option Nat) (heap : Nat → Flag)
    (arg : PyStr) (name : PyStr) (fid : Nat) (rest : List PyStr)
    (harg : pyStartsWith arg dashL = true)
    (hdd : ¬arg = dashdashL)
    (hsplit : pySplitTok arg = (name, none))
    (hname : ¬name = [])
    (hnund : ¬name = undefokName)
    (hfd : fd name = some fid)
    (hbool : (heap fid).boolean = true) :
    parseArgsLoop gnu fd heap (arg :: rest) =
      (let r := parseArgsLoop gnu fd (applyParse heap fid (.pbool true)) rest
       (r.1, (fid, PValue.pbool true) :: r.2.1, r.2.2)) := by
  rw [parseArgsLoop.eq_def]
  simp only [hsplit, harg, hdd, hname, hnund, hfd, hbool]
  simp

theorem loop_registered_val (gnu : Bool) (fd : PyStr → Option Nat) (heap : Nat → Flag)
    (arg : PyStr) (name : PyStr) (v : PyStr) (fid : Nat) (rest : List PyStr)
    (harg : pyStartsWith arg dashL = true)
    (hdd : ¬arg = dashdashL)
    (hsplit : pySplitTok arg = (name, some v))
    (hname : ¬name = [])
    (hnund : ¬name = undefokName)
    (hfd : fd name = some fid) :
    parseArgsLoop gnu fd heap (arg :: rest) =
      (let r := parseArgsLoop gnu fd (applyParse heap fid (.pstr v)) rest
       (r.1, (fid, PValue.pstr v) :: r.2.1, r.2.2)) := by
  rw [parseArgsLoop.eq_def]
  simp only [hsplit, harg, hdd, hname, hnund, hfd]
  simp

theorem loop_nobool (gnu : Bool) (fd : PyStr → Option Nat) (heap : Nat → Flag)
    (arg : PyStr) (name : PyStr) (val : Option PyStr) (nfid : Nat) (rest : List PyStr)
    (harg : pyStartsWith arg dashL = true)
    (hdd : ¬arg = dashdashL)
    (hsplit : pySplitTok arg = (name, val))
    (hname : ¬name = [])
    (hnund : ¬name = undefokName)
    (hfd : fd name = none)
    (hnb : noBoolResolves fd heap name = some nfid) :
    parseArgsLoop gnu fd heap (arg :: rest) =
      (let r := parseArgsLoop gnu fd (applyParse heap nfid (.pbool false)) rest
       (r.1, (nfid, PValue.pbool false) :: r.2.1, r.2.2)) := by
  rw [parseArgsLoop.eq_def]
  simp only [hsplit, harg, hdd, hname, hnund, hfd, hnb]
  simp

theorem loop_unknown (gnu : Bool) (fd : PyStr → Option Nat) (heap : Nat → Flag)
    (arg : PyStr) (name : PyStr) (val : Option PyStr) (rest : List PyStr)
    (harg : pyStartsWith arg dashL = true)
    (hdd : ¬arg = dashdashL)
    (hsplit : pySplitTok arg = (name, val))
    (hname : ¬name = [])
    (hnund : ¬name = undefokName)
    (hfd : fd name = none)
    (hnb : noBoolResolves fd heap name = none) :
    parseArgsLoop gnu fd heap (arg :: rest) =
      (let r := parseArgsLoop gnu fd heap rest
       (r.1, r.2.1, r.2.2.map fun o => ((name, arg) :: o.1, o.2.1, o.2.2))) := by
  rw [parseArgsLoop.eq_def]
  simp only [hsplit, harg, hdd, hname, hnund, hfd, hnb]
  simp

theorem loop_undefok_withval (gnu : Bool) (fd : PyStr → Option Nat) (heap : Nat → Flag)
    (arg : PyStr) (v : PyStr) (rest : List PyStr)
    (harg : pyStartsWith arg dashL = true)
    (hdd : ¬arg = dashdashL)
    (hsplit : pySplitTok arg = (undefokName, some v)) :
    parseArgsLoop gnu fd heap (arg :: rest) =
      (let r := parseArgsLoop gnu fd heap rest
       (r.1, r.2.1, r.2.2.map fun o => (o.1, o.2.1, undefokNames v ++ o.2.2))) := by
  rw [parseArgsLoop.eq_def]
  simp only [hsplit, harg, hdd]
  simp [show ¬undefokName = [] from by decide]

theorem loop_undefok_nextval (gnu : Bool) (fd : PyStr → Option Nat) (heap : Nat → Flag)
    (arg : PyStr) (v : PyStr) (rest2 : List PyStr)
    (harg : pyStartsWith arg dashL = true)
    (hdd : ¬arg = dashdashL)
    (hsplit : pySplitTok arg = (undefokName, none)) :
    parseArgsLoop gnu fd heap (arg :: v :: rest2) =
      (let r := parseArgsLoop gnu fd heap rest2
       (r.1, r.2.1, r.2.2.map fun o => (o.1, o.2.1, undefokNames v ++ o.2.2))) := by
  rw [parseArgsLoop.eq_def]
  simp only [hsplit, harg, hdd]
  simp [show ¬undefokName = [] from by decide]

theorem loop_undefok_missing (gnu : Bool) (fd : PyStr → Option Nat) (heap : Nat → Flag)
    (arg : PyStr)
    (harg : pyStartsWith arg dashL = true)
    (hdd : ¬arg = dashdashL)
    (hsplit : pySplitTok arg = (undefokName, none)) :
    parseArgsLoop gnu fd heap [arg] = (heap, [], .error (.flagsError arg)) := by
  rw [parseArgsLoop.eq_def]
  simp only [hsplit, harg, hdd]
  simp [show ¬undefokName = [] from by decide]


/- ----------------------------------------------------------------- -/
/- Helper lemmas: error shapes of the expansion and scanning phases.  -/
/- ----------------------------------------------------------------- -/

theorem gffl_nofile (fs : FileSys) (stack : List PyStr) (f : PyStr)
    (h : stack.contains f = false) (hl : lookupFile fs f = none) :
    getFlagFileLines fs stack f = .error .cantOpenFlagFileError := by
  rw [getFlagFileLines]
  split
  · simp_all
  · split
    · rfl
    · rename_i lines hl2
      rw [hl] at hl2
      cases hl2

theorem gfflList_directive_exterr (fs : FileSys) (stack : List PyStr) (line : PyStr)
    (rest : List PyStr) (e : GError) (h1 : pyIsSpace line = false)
    (h2 : (pyStartsWith line ['#'] || pyStartsWith line ['/', '/']) = false)
    (h3 : isFlagFileDirective line = true)
    (h4 : extractFilename line = .error e) :
    getFlagFileLinesList fs stack (line :: rest) = .error e := by
  rw [getFlagFileLinesList]
  simp [h1, h2, h3, h4]

theorem extractFilename_err (t : PyStr) (e : GError)
    (h : extractFilename t = .error e) : e = .flagsError t := by
  rw [extractFilename] at h
  split at h
  · cases h
  · split at h
    · cases h
    · cases h
      rfl

theorem gffl_no_unrec (fs : FileSys) :
    ∀ (stack : List PyStr) (filename : PyStr) (e : GError),
      getFlagFileLines fs stack filename = .error e → isUnrecErr e = false := by
  intro stack filename
  refine getFlagFileLines.induct fs
    (fun stack filename => ∀ e, getFlagFileLines fs stack filename = .error e →
      isUnrecErr e = false)
    (fun stack lines => ∀ e, getFlagFileLinesList fs stack lines = .error e →
      isUnrecErr e = false)
    ?_ ?_ ?_ ?_ ?_ ?_ ?_ ?_ ?_ ?_ ?_ ?_ stack filename
  · intro stack f h e he
    rw [gffl_cycle_step fs stack f h] at he
    cases he
  · intro stack f h hl e he
    rw [gffl_nofile fs stack f (by simpa using h) hl] at he
    cases he
    rfl
  · intro stack f h lines hl ih e he
    rw [gffl_open fs stack f lines (by simpa using h) hl] at he
    exact ih e he
  · intro stack e he
    rw [gfflList_nil] at he
    cases he
  · intro stack v rest2 h1 ih e he
    rw [gfflList_space fs stack v rest2 h1] at he
    exact ih e he
  · intro stack v rest2 h1 h2 ih e he
    rw [gfflList_comment fs stack v rest2 (by simpa using h1) h2] at he
    exact ih e he
  · intro stack v rest2 h1 h2 h3 e2 hext e he
    rw [gfflList_directive_exterr fs stack v rest2 e2 (by simpa using h1)
      (by simpa using h2) h3 hext] at he
    cases he
    rw [extractFilename_err v e2 hext]
    rfl
  · intro stack v rest2 h1 h2 h3 sub hsub e2 hgffl ih1 e he
    rw [gfflList_directive fs stack v rest2 sub (by simpa using h1)
      (by simpa using h2) h3 hsub, hgffl] at he
    simp at he
    cases he
    exact ih1 e2 hgffl
  · intro stack v rest2 h1 h2 h3 sub hsub tail hok e2 hrest ih1 ih2 e he
    rw [gfflList_directive fs stack v rest2 sub (by simpa using h1)
      (by simpa using h2) h3 hsub, hok, hrest] at he
    simp at he
    cases he
    exact ih2 e2 hrest
  · intro stack v rest2 h1 h2 h3 sub hsub tail hok tail2 hrest ih1 ih2 e he
    rw [gfflList_directive fs stack v rest2 sub (by simpa using h1)
      (by simpa using h2) h3 hsub, hok, hrest] at he
    simp at he
  · intro stack v rest2 h1 h2 h3 e2 hrest ih e he
    rw [gfflList_keep fs stack v rest2 (by simpa using h1) (by simpa using h2)
      (by simpa using h3), hrest] at he
    simp at he
    cases he
    exact ih e2 hrest
  · intro stack v rest2 h1 h2 h3 tail hrest ih e he
    rw [gfflList_keep fs stack v rest2 (by simpa using h1) (by simpa using h2)
      (by simpa using h3), hrest] at he
    simp at he


theorem extractFilename_no_unrec (t : PyStr) (e : GError)
    (h : extractFilename t = .error e) : isUnrecErr e = false := by
  rw [extractFilename_err t e h]
  rfl

theorem rff_dir2_nil (fs : FileSys) (gnu fg : Bool) (fd : PyStr → Option Nat)
    (heap : Nat → Flag) (v : PyStr)
    (h1 : isFlagFileDirective v = true)
    (h2 : (decide (v = ffL) || decide (v = fL)) = true) :
    readFlagsFromFiles fs gnu fg fd heap [v] = .error .illegalFlagValue := by
  rw [readFlagsFromFiles.eq_def]
  simp only [h1, h2]
  simp

theorem rff_dir2_cons (fs : FileSys) (gnu fg : Bool) (fd : PyStr → Option Nat)
    (heap : Nat → Flag) (v fn : PyStr) (rest2 : List PyStr)
    (h1 : isFlagFileDirective v = true)
    (h2 : (decide (v = ffL) || decide (v = fL)) = true) :
    readFlagsFromFiles fs gnu fg fd heap (v :: fn :: rest2) =
      match getFlagFileLines fs [] (pyExpanduser fn) with
      | .error e => .error e
      | .ok lines =>
        match readFlagsFromFiles fs gnu fg fd heap rest2 with
        | .error e => .error e
        | .ok r => .ok (lines ++ r) := by
  rw [readFlagsFromFiles.eq_def]
  simp only [h1, h2]
  simp

theorem rff_direq (fs : FileSys) (gnu fg : Bool) (fd : PyStr → Option Nat)
    (heap : Nat → Flag) (v : PyStr) (rest : List PyStr)
    (h1 : isFlagFileDirective v = true)
    (h2 : ¬(decide (v = ffL) || decide (v = fL)) = true) :
    readFlagsFromFiles fs gnu fg fd heap (v :: rest) =
      match extractFilename v with
      | .error e => .error e
      | .ok fn =>
        match getFlagFileLines fs [] fn with
        | .error e => .error e
        | .ok lines =>
          match readFlagsFromFiles fs gnu fg fd heap rest with
          | .error e => .error e
          | .ok r => .ok (lines ++ r) := by
  rw [readFlagsFromFiles.eq_def]
  simp only [h1, h2]
  simp

theorem rff_nonflag_cont (fs : FileSys) (gnu fg : Bool) (fd : PyStr → Option Nat)
    (heap : Nat → Flag) (v : PyStr) (rest : List PyStr)
    (h1 : isFlagFileDirective v = false)
    (h2 : ¬v = dashdashL)
    (h3 : pyStartsWith v dashL = false)
    (h4 : ¬(!fg && !gnu) = true) :
    readFlagsFromFiles fs gnu fg fd heap (v :: rest) =
      match readFlagsFromFiles fs gnu fg fd heap rest with
      | .error e => .error e
      | .ok r => .ok (v :: r) := by
  rw [readFlagsFromFiles.eq_def]
  simp only [h1, h2, h3, if_neg h4]
  simp

theorem rff_nola (fs : FileSys) (gnu fg : Bool) (fd : PyStr → Option Nat)
    (heap : Nat → Flag) (v v1 : PyStr) (rest2 : List PyStr)
    (h1 : isFlagFileDirective v = false)
    (h2 : ¬v = dashdashL)
    (h3 : pyStartsWith v dashL = true)
    (h4 : ¬(!(v.contains '=') && !(pyStartsWith v1 dashL)) = true) :
    readFlagsFromFiles fs gnu fg fd heap (v :: v1 :: rest2) =
      match readFlagsFromFiles fs gnu fg fd heap (v1 :: rest2) with
      | .error e => .error e
      | .ok r => .ok (v :: r) := by
  rw [readFlagsFromFiles.eq_def]
  simp only [h1, h2, h3, if_neg h4]
  simp

theorem rff_no_unrec (fs : FileSys) (gnu fg : Bool) (fd : PyStr → Option Nat)
    (heap : Nat → Flag) :
    ∀ (args : List PyStr) (e : GError),
      readFlagsFromFiles fs gnu fg fd heap args = .error e → isUnrecErr e = false := by
  intro args
  refine readFlagsFromFiles.induct fs gnu fg fd heap
    (fun args => ∀ e, readFlagsFromFiles fs gnu fg fd heap args = .error e →
      isUnrecErr e = false)
    ?_ ?_ ?_ ?_ ?_ ?_ ?_ ?_ ?_ ?_ ?_ ?_ ?_ ?_ ?_ ?_ ?_ ?_ ?_ ?_ ?_ ?_ args
  all_goals
    beta_reduce
    intros
    rename_i e he
  all_goals try (rw [readFlagsFromFiles.eq_def] at he; simp_all [isUnrecErr]; done)
  -- two-token directive with no following token
  · rename_i v h1 h2
    rw [rff_dir2_nil fs gnu fg fd heap v h1 h2] at he
    cases he
    rfl
  -- two-token directive whose file read fails
  · rename_i v h1 h2 fn rest2 e2 hg
    rw [rff_dir2_cons fs gnu fg fd heap v fn rest2 h1 h2, hg] at he
    cases he
    exact gffl_no_unrec fs [] (pyExpanduser fn) e2 hg
  -- equals-form directive whose filename extraction fails
  · rename_i v rest2 h1 h2 e2 hext
    rw [rff_direq fs gnu fg fd heap v rest2 h1 h2, hext] at he
    cases he
    exact extractFilename_no_unrec v e2 hext
  -- equals-form directive whose file read fails
  · rename_i v rest2 h1 h2 sub hext e2 hg
    rw [rff_direq fs gnu fg fd heap v rest2 h1 h2, hext] at he
    simp [hg] at he
    subst he
    exact gffl_no_unrec fs [] sub _ hg
  -- positional token kept in GNU-like mode, recursion fails
  · rename_i v rest2 h1 h2 h3 h4 e2 hrec ih
    rw [rff_nonflag_cont fs gnu fg fd heap v rest2 (by simpa using h1) h2
      h3 h4, hrec] at he
    cases he
    exact ih e2 hrec
  -- positional token kept in GNU-like mode, recursion succeeds
  · rename_i v rest2 h1 h2 h3 h4 tail hrec ih
    rw [rff_nonflag_cont fs gnu fg fd heap v rest2 (by simpa using h1) h2
      h3 h4, hrec] at he
    cases he
  -- dash token without lookahead consumption, recursion fails
  · rename_i v h1 h2 h3 v1 rest2 h4 e2 hrec ih
    rw [rff_nola fs gnu fg fd heap v v1 rest2 (by simpa using h1) h2
      (by simpa using h3) h4, hrec] at he
    cases he
    exact ih e2 hrec
  -- dash token without lookahead consumption, recursion succeeds
  · rename_i v h1 h2 h3 v1 rest2 h4 tail hrec ih
    rw [rff_nola fs gnu fg fd heap v v1 rest2 (by simpa using h1) h2
      (by simpa using h3) h4, hrec] at he
    cases he

theorem map_eq_error {α β : Type} (f : α → β) (x : Except GError α) (e : GError)
    (h : x.map f = .error e) : x = .error e := by
  cases x
  · simpa [Except.map] using h
  · simp [Except.map] at h

theorem loop_pos_gnu (fd : PyStr → Option Nat) (heap : Nat → Flag) (arg : PyStr)
    (rest : List PyStr) (h : pyStartsWith arg dashL = false) :
    parseArgsLoop true fd heap (arg :: rest) =
      (let r := parseArgsLoop true fd heap rest
       (r.1, r.2.1, r.2.2.map fun o => (o.1, arg :: o.2.1, o.2.2))) := by
  rw [parseArgsLoop.eq_def]
  simp [h]

theorem loop_alldash_gnu (fd : PyStr → Option Nat) (heap : Nat → Flag) (arg : PyStr)
    (rest : List PyStr) (harg : pyStartsWith arg dashL = true) (hdd : ¬arg = dashdashL)
    (hname : (pySplitTok arg).1 = []) :
    parseArgsLoop true fd heap (arg :: rest) =
      (let r := parseArgsLoop true fd heap rest
       (r.1, r.2.1, r.2.2.map fun o => (o.1, arg :: o.2.1, o.2.2))) := by
  rw [parseArgsLoop.eq_def]
  simp [harg, hdd, hname]

theorem loop_alldash_nongnu (gnu : Bool) (fd : PyStr → Option Nat) (heap : Nat → Flag)
    (arg : PyStr) (rest : List PyStr) (harg : pyStartsWith arg dashL = true)
    (hdd : ¬arg = dashdashL) (hname : (pySplitTok arg).1 = []) (hg : ¬gnu = true) :
    parseArgsLoop gnu fd heap (arg :: rest) = (heap, [], .ok ([], arg :: rest, [])) := by
  rw [parseArgsLoop.eq_def]
  simp [harg, hdd, hname, hg]

theorem loop_flag_missing (gnu : Bool) (fd : PyStr → Option Nat) (heap : Nat → Flag)
    (arg : PyStr) (name : PyStr) (fid : Nat)
    (harg : pyStartsWith arg dashL = true) (hdd : ¬arg = dashdashL)
    (hsplit : pySplitTok arg = (name, none))
    (hname : ¬name = []) (hnund : ¬name = undefokName)
    (hfd : fd name = some fid) (hbool : (heap fid).boolean = false) :
    parseArgsLoop gnu fd heap [arg] = (heap, [], .error (.flagsError arg)) := by
  rw [parseArgsLoop.eq_def]
  simp only [hsplit, harg, hdd, hname, hnund, hfd, hbool]
  simp

theorem loop_flag_nextval (gnu : Bool) (fd : PyStr → Option Nat) (heap : Nat → Flag)
    (arg : PyStr) (name : PyStr) (fid : Nat) (v : PyStr) (rest2 : List PyStr)
    (harg : pyStartsWith arg dashL = true) (hdd : ¬arg = dashdashL)
    (hsplit : pySplitTok arg = (name, none))
    (hname : ¬name = []) (hnund : ¬name = undefokName)
    (hfd : fd name = some fid) (hbool : (heap fid).boolean = false) :
    parseArgsLoop gnu fd heap (arg :: v :: rest2) =
      (let r := parseArgsLoop gnu fd (applyParse heap fid (.pstr v)) rest2
       (r.1, (fid, PValue.pstr v) :: r.2.1, r.2.2)) := by
  rw [parseArgsLoop.eq_def]
  simp only [hsplit, harg, hdd, hname, hnund, hfd, hbool]
  simp

theorem loop_no_unrec (gnu : Bool) (fd : PyStr → Option Nat) :
    ∀ (heap : Nat → Flag) (args : List PyStr) (e : GError),
      (parseArgsLoop gnu fd heap args).2.2 = .error e → isUnrecErr e = false := by
  intro heap args
  refine parseArgsLoop.induct gnu fd
    (fun heap args => ∀ e, (parseArgsLoop gnu fd heap args).2.2 = .error e →
      isUnrecErr e = false)
    ?_ ?_ ?_ ?_ ?_ ?_ ?_ ?_ ?_ ?_ ?_ ?_ ?_ ?_ ?_ heap args
  all_goals
    beta_reduce
    intros
    rename_i e he
  all_goals try (rw [parseArgsLoop.eq_def] at he; simp_all [isUnrecErr]; done)
  -- positional token in GNU mode
  · rename_i hp v rest2 hpos hg ih
    subst hg
    rw [loop_pos_gnu fd hp v rest2 hpos] at he
    simp only [] at he
    exact ih e (map_eq_error _ _ e he)
  -- all-dash token in GNU mode
  · rename_i hp v rest2 hst hdd nv nm hname hg ih
    subst hg
    rw [loop_alldash_gnu fd hp v rest2 (by simpa using hst) hdd hname] at he
    simp only [] at he
    exact ih e (map_eq_error _ _ e he)
  -- all-dash token outside GNU mode
  · rename_i hp v rest2 hst hdd nv nm hname hg
    rw [loop_alldash_nongnu gnu fd hp v rest2 (by simpa using hst) hdd hname hg] at he
    simp at he
  -- undefok with an attached value
  · rename_i hp v rest2 hst hdd nv nm hname hund sn hval ih
    have hsplit : pySplitTok v = (nm, nv.2) := rfl
    rw [hund, hval] at hsplit
    rw [loop_undefok_withval gnu fd hp v sn rest2 (by simpa using hst) hdd hsplit] at he
    simp only [] at he
    exact ih e (map_eq_error _ _ e he)
  -- undefok with no value and no following token
  · rename_i hp v hst hdd nv nm hname hund hval
    have hsplit : pySplitTok v = (nm, nv.2) := rfl
    rw [hund, hval] at hsplit
    rw [loop_undefok_missing gnu fd hp v (by simpa using hst) hdd hsplit] at he
    simp only [] at he
    cases he
    rfl
  -- undefok consuming the following token
  · rename_i hp v hst hdd nv nm hname hund hval v2 rest2 ih
    have hsplit : pySplitTok v = (nm, nv.2) := rfl
    rw [hund, hval] at hsplit
    rw [loop_undefok_nextval gnu fd hp v v2 rest2 (by simpa using hst) hdd hsplit] at he
    simp only [] at he
    exact ih e (map_eq_error _ _ e he)
  -- registered boolean flag with no value
  · rename_i hp v rest2 hst hdd nv nm hname hnund fid hfd hb hp2 ih
    have hb2 : (hp fid).boolean = true ∧ nv.2.isNone = true := by
      simpa using hb
    have hval : nv.2 = none := Option.isNone_iff_eq_none.mp hb2.2
    have hsplit : pySplitTok v = (nm, nv.2) := rfl
    rw [hval] at hsplit
    rw [loop_registered_bool gnu fd hp v nm fid rest2
      (by simpa using hst) hdd hsplit hname hnund hfd hb2.1] at he
    simp only [] at he
    exact ih e he
  -- registered flag with an attached value
  · rename_i hp v rest2 hst hdd nv nm hname hnund fid hfd hb sn hval hp2 ih
    have hsplit : pySplitTok v = (nm, nv.2) := rfl
    rw [hval] at hsplit
    rw [loop_registered_val gnu fd hp v nm sn fid rest2
      (by simpa using hst) hdd hsplit hname hnund hfd] at he
    simp only [] at he
    exact ih e he
  -- registered non-boolean flag with no value and no following token
  · rename_i hp v hst hdd nv nm hname hnund fid hfd hb hval
    have hbool : (hp fid).boolean = false := by
      by_contra hcon
      apply hb
      have hbt : (hp fid).boolean = true := by simpa using hcon
      rw [hbt, hval]
      rfl
    have hsplit : pySplitTok v = (nm, nv.2) := rfl
    rw [hval] at hsplit
    rw [loop_flag_missing gnu fd hp v nm fid
      (by simpa using hst) hdd hsplit hname hnund hfd hbool] at he
    simp only [] at he
    cases he
    rfl
  -- registered non-boolean flag consuming the following token as its value
  · rename_i hp v1 hst hdd nv nm hname hnund fid hfd hb hval v rest2 hp2 ih
    have hbool : (hp fid).boolean = false := by
      by_contra hcon
      apply hb
      have hbt : (hp fid).boolean = true := by simpa using hcon
      rw [hbt, hval]
      rfl
    have hsplit : pySplitTok v1 = (nm, nv.2) := rfl
    rw [hval] at hsplit
    rw [loop_flag_nextval gnu fd hp v1 nm fid v rest2
      (by simpa using hst) hdd hsplit hname hnund hfd hbool] at he
    simp only [] at he
    exact ih e he
  -- unknown flag token
  · rename_i hp v rest2 hst hdd nv nm hname hnund hfd hnb ih
    have hsplit : pySplitTok v = (nm, nv.2) := rfl
    rw [loop_unknown gnu fd hp v nm nv.2 rest2
      (by simpa using hst) hdd hsplit hname hnund hfd hnb] at he
    simp only [] at he
    exact ih e (map_eq_error _ _ e he)


/- ----------------------------------------------------------------- -/
/- Helper lemmas: expansion pass-through and find? decomposition.     -/
/- ----------------------------------------------------------------- -/

theorem rff_nil (fs : FileSys) (gnu fg : Bool) (fd : PyStr → Option Nat)
    (heap : Nat → Flag) : readFlagsFromFiles fs gnu fg fd heap [] = .ok [] := by
  rw [readFlagsFromFiles]

theorem rff_single (fs : FileSys) (gnu fg : Bool) (fd : PyStr → Option Nat)
    (heap : Nat → Flag) (t : PyStr) (h : isFlagFileDirective t = false) :
    readFlagsFromFiles fs gnu fg fd heap [t] = .ok [t] := by
  rw [readFlagsFromFiles.eq_def]
  simp only [h, Bool.false_eq_true, if_false]
  split
  · rfl
  · split
    · split
      · rfl
      · rw [rff_nil]
    · rfl

theorem contains_ukTok (v : PyStr) :
    (dashdashL ++ undefokName ++ '=' :: v).contains '=' = true := rfl

theorem ukTok_not_directive (v : PyStr) :
    isFlagFileDirective (dashdashL ++ undefokName ++ '=' :: v) = false := rfl

theorem ukTok_starts_dash (v : PyStr) :
    pyStartsWith (dashdashL ++ undefokName ++ '=' :: v) dashL = true := rfl

theorem ukTok_ne_dd (v : PyStr) :
    ¬(dashdashL ++ undefokName ++ '=' :: v) = dashdashL := by
  intro hc
  have hlen := congrArg List.length hc
  simp [dashdashL, undefokName] at hlen

theorem ukBare_not_directive : isFlagFileDirective (dashdashL ++ undefokName) = false := by
  decide

theorem ukBare_starts_dash : pyStartsWith (dashdashL ++ undefokName) dashL = true := by
  decide

theorem ukBare_ne_dd : ¬(dashdashL ++ undefokName) = dashdashL := by
  decide

theorem find?_decomp {α : Type} (p : α → Bool) :
    ∀ (l : List α) (a : α), l.find? p = some a →
      ∃ l1 l2, l = l1 ++ a :: l2 ∧ (∀ x ∈ l1, p x = false) ∧ p a = true := by
  intro l
  induction l with
  | nil =>
    intro a h
    simp at h
  | cons x xs ih =>
    intro a h
    by_cases hx : p x = true
    · rw [List.find?_cons_of_pos _ hx] at h
      cases h
      exact ⟨[], xs, rfl, fun y hy => absurd hy (List.not_mem_nil y), hx⟩
    · have hx' : p x = false := by simpa using hx
      rw [List.find?_cons_of_neg _ hx] at h
      obtain ⟨l1, l2, heq, hpre, hpa⟩ := ih a h
      refine ⟨x :: l1, l2, by rw [heq]; rfl, ?_, hpa⟩
      intro y hy
      rcases List.mem_cons.mp hy with hy | hy
      · rw [hy]; exact hx'
      · exact hpre y hy


/-- Claim C2: on a registry holding a boolean flag named B, the token --B is
routed to that flag with value true and the token --noB (when noB is not
itself a registered name) is routed to the same flag with value false; the
negated form applies exactly when the scanned name is not itself registered,
starts with no, and its remainder names a registered boolean flag, and
otherwise the token is recorded as unknown. -/
theorem parse_boolean_tokens (gnu : Bool) (fd : PyStr → Option Nat)
    (heap : Nat → Flag) (B : PyStr) (i : Nat)
    (hB : fd B = some i) (hbool : (heap i).boolean = true)
    (hne : ¬B = []) (hstrip : pyLStripDash B = B)
    (heq : B.contains '=' = false) (hund : ¬B = undefokName)
    (hnoB : fd (noL ++ B) = none) (hnound : ¬(noL ++ B) = undefokName) :
    parseArgsLoop gnu fd heap [dashdashL ++ B] =
      (applyParse heap i (.pbool true), [(i, PValue.pbool true)], .ok ([], [], [])) ∧
    parseArgsLoop gnu fd heap [dashdashL ++ (noL ++ B)] =
      (applyParse heap i (.pbool false), [(i, PValue.pbool false)], .ok ([], [], [])) ∧
    (∀ N j, noBoolResolves fd heap N = some j ↔
      (pyStartsWith N noL = true ∧ fd (N.drop 2) = some j ∧
        (heap j).boolean = true)) ∧
    (∀ N, ¬N = [] → pyLStripDash N = N → N.contains '=' = false →
      ¬N = undefokName → fd N = none → noBoolResolves fd heap N = none →
      parseArgsLoop gnu fd heap [dashdashL ++ N] =
        (heap, [], .ok ([(N, dashdashL ++ N)], [], []))) := by
  refine ⟨?_, ?_, ?_, ?_⟩
  · rw [loop_registered_bool gnu fd heap (dashdashL ++ B) B i []
      (startsWith_dd B) (dd_append_ne B hne) (splitTok_ddB B heq hstrip)
      hne hund hB hbool, loop_nil]
  · have hnbB : noBoolResolves fd heap (noL ++ B) = some i := by
      simp [noBoolResolves, startsWith_no_noB, drop_noL, hB, hbool]
    rw [loop_nobool gnu fd heap (dashdashL ++ (noL ++ B)) (noL ++ B) none i []
      (startsWith_ddno B) (dd_append_ne (noL ++ B) (by simp [noL]))
      (splitTok_ddnoB B heq) (by simp [noL]) hnound hnoB hnbB, loop_nil]
  · intro N j
    by_cases h1 : pyStartsWith N noL = true
    · rcases hfd2 : fd (N.drop 2) with _ | k
      · simp [noBoolResolves, h1, hfd2]
      · by_cases hb : (heap k).boolean = true
        · simp only [noBoolResolves, if_pos h1, hfd2, hb, if_true, h1, true_and]
          constructor
          · intro hkj
            cases hkj
            exact ⟨rfl, hb⟩
          · intro hx
            obtain ⟨hx1, _⟩ := hx
            cases hx1
            rfl
        · have hb' : (heap k).boolean = false := by simpa using hb
          simp only [noBoolResolves, if_pos h1, hfd2, hb', if_false, h1, true_and]
          constructor
          · intro hx
            cases hx
          · intro hx
            obtain ⟨hx1, hx2⟩ := hx
            cases hx1
            rw [hb'] at hx2
            cases hx2
    · have h1' : pyStartsWith N noL = false := by simpa using h1
      simp [noBoolResolves, h1']
  · intro N hne2 hstrip2 heq2 hund2 hfd2 hnb2
    rw [loop_unknown gnu fd heap (dashdashL ++ N) N none []
      (startsWith_dd N) (dd_append_ne N hne2) (splitTok_ddB N heq2 hstrip2)
      hne2 hund2 hfd2 hnb2, loop_nil]
    rfl

/-- Witness for C2 at a concrete boolean flag registry. -/
theorem parse_boolean_tokens_witness :
    (parseArgsLoop false fdW heapW [dashdashL ++ cbL]).2.1 =
      [(0, PValue.pbool true)] ∧
    (parseArgsLoop false fdW heapW [dashdashL ++ (noL ++ cbL)]).2.1 =
      [(0, PValue.pbool false)] := by
  have h := parse_boolean_tokens false fdW heapW cbL 0 (by decide) (by decide)
    (by decide) (by decide) (by decide) (by decide) (by decide) (by decide)
  rw [h.1, h.2.1]
  exact ⟨rfl, rfl⟩


/-- Claim C3: a token naming no registered flag (and not of the boolean
negation form) makes the top-level call raise UnrecognizedFlagError exactly
when the name is not in the undefok suppression set; an undefok token
contributes every comma-separated stripped name and its no-prefixed form,
takes the next token as its value when none is attached (FlagsError when no
next token exists), and is never itself routed to any flag parser (heap and
trace are untouched by it). -/
theorem undefok_suppression (fs : FileSys) (s : FlagValues) (prog : PyStr)
    (N : PyStr) (u : PyStr)
    (hNne : ¬N = []) (hNstrip : pyLStripDash N = N)
    (hNeq : N.contains '=' = false) (hNund : ¬N = undefokName)
    (hNfd : s.flags N = none)
    (hNnb : noBoolResolves s.flags s.heap N = none)
    (hNdir : isFlagFileDirective (dashdashL ++ N) = false) :
    (callFV fs s [prog, dashdashL ++ N]).result =
      .error (.unrecognizedFlagError N (dashdashL ++ N)) ∧
    (callFV fs s [prog, dashdashL ++ undefokName ++ '=' :: u, dashdashL ++ N]).result =
      (if (undefokNames u).contains N then .ok [prog]
       else .error (.unrecognizedFlagError N (dashdashL ++ N))) ∧
    (∀ (gnu : Bool) (fd : PyStr → Option Nat) (heap : Nat → Flag)
        (rest : List PyStr),
      parseArgsLoop gnu fd heap ((dashdashL ++ undefokName ++ '=' :: u) :: rest) =
        (let r := parseArgsLoop gnu fd heap rest
         (r.1, r.2.1, r.2.2.map fun o => (o.1, o.2.1, undefokNames u ++ o.2.2)))) ∧
    (∀ (gnu : Bool) (fd : PyStr → Option Nat) (heap : Nat → Flag)
        (rest : List PyStr),
      parseArgsLoop gnu fd heap ((dashdashL ++ undefokName) :: u :: rest) =
        (let r := parseArgsLoop gnu fd heap rest
         (r.1, r.2.1, r.2.2.map fun o => (o.1, o.2.1, undefokNames u ++ o.2.2)))) ∧
    (∀ (gnu : Bool) (fd : PyStr → Option Nat) (heap : Nat → Flag),
      parseArgsLoop gnu fd heap [dashdashL ++ undefokName] =
        (heap, [], .error (.flagsError (dashdashL ++ undefokName)))) := by
  have hloopN : ∀ (gnu : Bool),
      parseArgsLoop gnu s.flags s.heap [dashdashL ++ N] =
        (s.heap, [], .ok ([(N, dashdashL ++ N)], [], [])) := by
    intro gnu
    rw [loop_unknown gnu s.flags s.heap (dashdashL ++ N) N none []
      (startsWith_dd N) (dd_append_ne N hNne) (splitTok_ddB N hNeq hNstrip)
      hNne hNund hNfd hNnb, loop_nil]
    rfl
  have hcondUk : ¬(!((dashdashL ++ undefokName ++ '=' :: u).contains '=') &&
      !(pyStartsWith (dashdashL ++ N) dashL)) = true := by
    rw [contains_ukTok]
    simp
  refine ⟨?_, ?_, ?_, ?_, ?_⟩
  · have hrff : readFlagsFromFiles fs s.use_gnu_getopt false s.flags s.heap
        [dashdashL ++ N] = .ok [dashdashL ++ N] :=
      rff_single fs s.use_gnu_getopt false s.flags s.heap (dashdashL ++ N) hNdir
    simp only [callFV, hrff, hloopN s.use_gnu_getopt]
    rw [List.find?_cons_of_pos]
    rfl
  · have hrff2 : readFlagsFromFiles fs s.use_gnu_getopt false s.flags s.heap
        [dashdashL ++ undefokName ++ '=' :: u, dashdashL ++ N] =
          .ok [dashdashL ++ undefokName ++ '=' :: u, dashdashL ++ N] := by
      rw [rff_nola fs s.use_gnu_getopt false s.flags s.heap _ _ []
        (ukTok_not_directive u) (ukTok_ne_dd u) (ukTok_starts_dash u) hcondUk,
        rff_single fs s.use_gnu_getopt false s.flags s.heap (dashdashL ++ N) hNdir]
    have hloop2 : parseArgsLoop s.use_gnu_getopt s.flags s.heap
        [dashdashL ++ undefokName ++ '=' :: u, dashdashL ++ N] =
          (s.heap, [], .ok ([(N, dashdashL ++ N)], [], undefokNames u ++ [])) := by
      rw [loop_undefok_withval s.use_gnu_getopt s.flags s.heap _ u [dashdashL ++ N]
        (ukTok_starts_dash u) (ukTok_ne_dd u) (splitTok_undefokEq u),
        hloopN s.use_gnu_getopt]
      rfl
    by_cases hc : (undefokNames u).contains N = true
    · rw [if_pos hc]
      simp only [callFV, hrff2, hloop2]
      have hmem : N ∈ undefokNames u := by
        simpa [List.elem_eq_mem] using hc
      rw [List.find?_cons_of_neg _ (by simp [hmem])]
      rfl
    · have hc' : (undefokNames u).contains N = false := by simpa using hc
      have hmem : N ∉ undefokNames u := by
        simpa [List.elem_eq_mem] using hc'
      rw [if_neg hc]
      simp only [callFV, hrff2, hloop2]
      rw [List.find?_cons_of_pos _ (by simp [hmem])]
  · intro gnu fd heap rest
    exact loop_undefok_withval gnu fd heap _ u rest (ukTok_starts_dash u)
      (ukTok_ne_dd u) (splitTok_undefokEq u)
  · intro gnu fd heap rest
    exact loop_undefok_nextval gnu fd heap _ u rest ukBare_starts_dash
      ukBare_ne_dd splitTok_undefokBare
  · intro gnu fd heap
    exact loop_undefok_missing gnu fd heap _ ukBare_starts_dash
      ukBare_ne_dd splitTok_undefokBare

/-- Witness for C3 at a concrete unknown token against the empty registry. -/
theorem undefok_suppression_witness :
    (callFV [] sEmpty [pL, dashdashL ++ nUnk]).result =
      .error (.unrecognizedFlagError nUnk (dashdashL ++ nUnk)) :=
  (undefok_suppression [] sEmpty pL nUnk nUnk (by decide) (by decide) (by decide)
    (by decide) (by decide) (by decide) (by decide)).1


/-- Claim C4: when a top-level call raises UnrecognizedFlagError, the whole
vector was expanded and scanned, the raised name is the first unknown flag
not covered by the undefok set in scan order, and the heap of flag objects
(and the trace of Parse calls) returned by the call are exactly those the
scan produced: every flag token consumed keeps its newly parsed value, with
no rollback. -/
theorem call_first_unknown_no_rollback (fs : FileSys) (s : FlagValues)
    (argv : List PyStr) (n v : PyStr)
    (h : (callFV fs s argv).result = .error (.unrecognizedFlagError n v)) :
    ∃ prog args expanded unknown unparsed uset pre post,
      argv = prog :: args ∧
      readFlagsFromFiles fs s.use_gnu_getopt false s.flags s.heap args =
        .ok expanded ∧
      (parseArgsLoop s.use_gnu_getopt s.flags s.heap expanded).2.2 =
        .ok (unknown, unparsed, uset) ∧
      (callFV fs s argv).heap =
        (parseArgsLoop s.use_gnu_getopt s.flags s.heap expanded).1 ∧
      (callFV fs s argv).trace =
        (parseArgsLoop s.use_gnu_getopt s.flags s.heap expanded).2.1 ∧
      unknown = pre ++ (n, v) :: post ∧
      (∀ q ∈ pre, uset.contains q.1 = true) ∧
      uset.contains n = false := by
  rcases argv with _ | ⟨prog, args⟩
  · simp [callFV] at h
  · rcases hrff : readFlagsFromFiles fs s.use_gnu_getopt false s.flags s.heap args
        with e | expanded
    · have hres : (callFV fs s (prog :: args)).result = .error e := by
        simp [callFV, hrff]
      rw [hres] at h
      cases h
      have hbad := rff_no_unrec fs s.use_gnu_getopt false s.flags s.heap args
        _ hrff
      cases hbad
    · rcases hloop : (parseArgsLoop s.use_gnu_getopt s.flags s.heap expanded).2.2
          with e | o
      · have hres : (callFV fs s (prog :: args)).result = .error e := by
          simp [callFV, hrff, hloop]
        rw [hres] at h
        cases h
        have hbad := loop_no_unrec s.use_gnu_getopt s.flags s.heap expanded _ hloop
        cases hbad
      · obtain ⟨unknown, unparsed, uset⟩ := o
        rcases hfind : unknown.find? (fun q => !(uset.contains q.1)) with _ | p
        · have hres : (callFV fs s (prog :: args)).result = .ok (prog :: unparsed) := by
            simp only [callFV, hrff, hloop, hfind]
          rw [hres] at h
          cases h
        · have hres : (callFV fs s (prog :: args)).result =
              .error (.unrecognizedFlagError p.1 p.2) := by
            simp only [callFV, hrff, hloop, hfind]
          rw [hres] at h
          injection h with h1
          injection h1 with ha hb
          obtain ⟨pre, post, hdecomp, hpre, hpa⟩ := find?_decomp _ unknown p hfind
          have hp : p = (n, v) := by
            rw [← ha, ← hb]
          refine ⟨prog, args, expanded, unknown, unparsed, uset, pre, post, rfl,
            hrff, hloop, ?_, ?_, ?_, ?_, ?_⟩
          · simp only [callFV, hrff, hloop, hfind]
          · simp only [callFV, hrff, hloop, hfind]
          · rw [← hp]
            exact hdecomp
          · intro q hq
            have hq2 := hpre q hq
            simpa using hq2
          · have h5 : uset.contains p.1 = false := by simpa using hpa
            rw [← ha]
            exact h5

/-- Witness for C4: a concrete call that parses the flag a and then aborts on
the unknown flag zz keeps the parsed value of a in the returned heap. -/
theorem call_first_unknown_no_rollback_witness :
    (((callFV [] sC4 argvC4).heap 0).value = PValue.pstr ['1'] ∧
      ((callFV [] sC4 argvC4).heap 0).present = true) ∧
    (∃ prog args expanded unknown unparsed uset pre post,
      argvC4 = prog :: args ∧
      readFlagsFromFiles [] sC4.use_gnu_getopt false sC4.flags sC4.heap args =
        .ok expanded ∧
      (parseArgsLoop sC4.use_gnu_getopt sC4.flags sC4.heap expanded).2.2 =
        .ok (unknown, unparsed, uset) ∧
      (callFV [] sC4 argvC4).heap =
        (parseArgsLoop sC4.use_gnu_getopt sC4.flags sC4.heap expanded).1 ∧
      (callFV [] sC4 argvC4).trace =
        (parseArgsLoop sC4.use_gnu_getopt sC4.flags sC4.heap expanded).2.1 ∧
      unknown = pre ++ (zzL, tokZZ) :: post ∧
      (∀ q ∈ pre, uset.contains q.1 = true) ∧
      uset.contains zzL = false) :=
  ⟨by decide, call_first_unknown_no_rollback [] sC4 argvC4 zzL tokZZ (by decide)⟩


/- ----------------------------------------------------------------- -/
/- Helper lemmas: shortest unique prefixes.                           -/
/- ----------------------------------------------------------------- -/

theorem lcpLen_le_left : ∀ (a b : PyStr), lcpLen a b ≤ a.length := by
  intro a
  induction a with
  | nil => intro b; cases b <;> simp [lcpLen]
  | cons x xs ih =>
    intro b
    cases b with
    | nil => simp [lcpLen]
    | cons y ys =>
      by_cases hxy : x = y
      · simp only [lcpLen, if_pos hxy, List.length_cons]
        exact Nat.succ_le_succ (ih ys)
      · simp [lcpLen, hxy]

theorem lcpLen_le_right : ∀ (a b : PyStr), lcpLen a b ≤ b.length := by
  intro a
  induction a with
  | nil => intro b; cases b <;> simp [lcpLen]
  | cons x xs ih =>
    intro b
    cases b with
    | nil => simp [lcpLen]
    | cons y ys =>
      by_cases hxy : x = y
      · simp only [lcpLen, if_pos hxy, List.length_cons]
        exact Nat.succ_le_succ (ih ys)
      · simp [lcpLen, hxy]

theorem lcpLen_char_eq : ∀ (a b : PyStr) (j : Nat), j < lcpLen a b →
    a.getD j ' ' = b.getD j ' ' := by
  intro a
  induction a with
  | nil => intro b j hj; simp [lcpLen] at hj
  | cons x xs ih =>
    intro b j hj
    cases b with
    | nil => simp [lcpLen] at hj
    | cons y ys =>
      by_cases hxy : x = y
      · rw [lcpLen, if_pos hxy] at hj
        cases j with
        | zero => simpa using hxy
        | succ j2 =>
          simp only [List.getD_cons_succ]
          exact ih ys j2 (Nat.lt_of_succ_lt_succ hj)
      · rw [lcpLen, if_neg hxy] at hj
        cases hj

theorem lcpLen_char_ne : ∀ (a b : PyStr), lcpLen a b < a.length →
    lcpLen a b < b.length → ¬a.getD (lcpLen a b) ' ' = b.getD (lcpLen a b) ' ' := by
  intro a
  induction a with
  | nil => intro b h1 _; simp at h1
  | cons x xs ih =>
    intro b h1 h2
    cases b with
    | nil => simp at h2
    | cons y ys =>
      by_cases hxy : x = y
      · rw [lcpLen, if_pos hxy] at h1 h2 ⊢
        simp only [List.getD_cons_succ]
        exact ih ys (Nat.lt_of_succ_lt_succ h1) (Nat.lt_of_succ_lt_succ h2)
      · rw [lcpLen, if_neg hxy]
        simpa using hxy

theorem optLcp_le (curr : PyStr) (next : Option PyStr) :
    optLcp curr next ≤ curr.length := by
  cases next with
  | none => exact Nat.zero_le _
  | some nxt => exact lcpLen_le_left curr nxt

theorem supBreakCond_before (curr : PyStr) (next : Option PyStr) (idx : Nat)
    (h : idx < optLcp curr next) : supBreakCond curr next idx = false := by
  cases next with
  | none => simp [optLcp] at h
  | some nxt =>
    rw [optLcp] at h
    rw [supBreakCond]
    have hlen : idx < nxt.length := Nat.lt_of_lt_of_le h (lcpLen_le_right curr nxt)
    have hchar : curr[idx]?.getD ' ' = nxt[idx]?.getD ' ' := by
      simpa [List.getD_eq_getElem?_getD] using lcpLen_char_eq curr nxt idx h
    simp [Nat.not_le.mpr hlen, hchar]

theorem supBreakCond_at (curr : PyStr) (next : Option PyStr)
    (hL : optLcp curr next < curr.length) :
    supBreakCond curr next (optLcp curr next) = true := by
  cases next with
  | none => rfl
  | some nxt =>
    rw [supBreakCond, optLcp]
    rcases Nat.lt_or_ge (lcpLen curr nxt) nxt.length with hlen | hlen
    · have hchar : ¬curr[lcpLen curr nxt]?.getD ' ' = nxt[lcpLen curr nxt]?.getD ' ' := by
        simpa [List.getD_eq_getElem?_getD] using
          lcpLen_char_ne curr nxt (by simpa [optLcp] using hL) hlen
      simp [hchar]
    · simp [hlen]

theorem supInner_spec (curr : PyStr) (next : Option PyStr) (p : Nat) :
    supInner curr next p =
      (curr.take (max p (optLcp curr next) + 1), optLcp curr next) := by
  have main : ∀ (rem : PyStr) (idx : Nat), rem = curr.drop idx →
      idx ≤ optLcp curr next →
      supInnerGo curr next p idx rem =
        (curr.take (max p (optLcp curr next) + 1), optLcp curr next) := by
    intro rem
    induction rem with
    | nil =>
      intro idx hdrop hle
      have hlen : curr.length ≤ idx := by
        by_contra hcon
        have : curr.drop idx ≠ [] := by
          intro hnil
          rw [List.drop_eq_nil_iff_le] at hnil
          exact hcon hnil
        exact this hdrop.symm
      have hEq : idx = curr.length :=
        Nat.le_antisymm (Nat.le_trans hle (optLcp_le curr next)) hlen
      have hLEq : optLcp curr next = curr.length :=
        Nat.le_antisymm (optLcp_le curr next) (hEq ▸ hle)
      rw [supInnerGo]
      have htake : curr.take (max p (optLcp curr next) + 1) = curr := by
        apply List.take_of_length_le
        calc curr.length = optLcp curr next := hLEq.symm
        _ ≤ max p (optLcp curr next) := Nat.le_max_right p _
        _ ≤ max p (optLcp curr next) + 1 := Nat.le_succ _
      rw [htake, hLEq]
    | cons c rem2 ih =>
      intro idx hdrop hle
      have hidxlen : idx < curr.length := by
        by_contra hcon
        have : curr.drop idx = [] := by
          rw [List.drop_eq_nil_iff_le]
          omega
        rw [this] at hdrop
        cases hdrop
      rcases Nat.lt_or_ge idx (optLcp curr next) with hlt | hge
      · rw [supInnerGo, if_neg (by rw [supBreakCond_before curr next idx hlt]; simp)]
        apply ih (idx + 1)
        · have : curr.drop (idx + 1) = (curr.drop idx).drop 1 := by
            rw [List.drop_drop]
          rw [this, ← hdrop]
          rfl
        · exact hlt
      · have hEq : idx = optLcp curr next := Nat.le_antisymm hle hge
        subst hEq
        rw [supInnerGo, if_pos (by rw [supBreakCond_at curr next hidxlen])]
  exact main curr 0 rfl (Nat.zero_le _)

theorem supLoop_eq_spec : ∀ (l : List PyStr) (p : Nat),
    supLoop l p = specNeighborPrefixes p l := by
  intro l
  induction l with
  | nil => intro p; rfl
  | cons c rest ih =>
    intro p
    rw [supLoop, specNeighborPrefixes, supInner_spec, ih]

/-- Claim C7: ShortestUniquePrefixes computes, for every name in the sorted
boolean-doubled name list, the name's shortest left-substring that is not
shared as a prefix with its immediate lexicographic neighbors (clamped at the
full name, with the predecessor constraint carried as the previous common
prefix length); on the names alpha, alphabet and beta it assigns alpha the
prefix alpha (length five) and beta the prefix b. -/
theorem shortest_unique_prefixes_spec (fl : List (PyStr × Flag))
    (hne : ∀ nm ∈ pySortStrs (boolDoubledNames fl), ¬nm = []) :
    shortestUniquePrefixes fl =
      specNeighborPrefixes 0 (pySortStrs (boolDoubledNames fl)) ∧
    (shortestUniquePrefixes fl3).lookup alphaL = some alphaL ∧
    5 ≤ alphaL.length ∧
    (shortestUniquePrefixes fl3).lookup betaL = some ['b'] := by
  refine ⟨supLoop_eq_spec (pySortStrs (boolDoubledNames fl)) 0, ?_, ?_, ?_⟩
  · decide
  · decide
  · decide

/-- Witness for C7 at the concrete three-name registry. -/
theorem shortest_unique_prefixes_spec_witness :
    shortestUniquePrefixes fl3 =
      specNeighborPrefixes 0 (pySortStrs (boolDoubledNames fl3)) :=
  (shortest_unique_prefixes_spec fl3 (by decide)).1

end Gflags
